import Mathlib

/-!
Verification of the line-clipping algorithms in this repository.

The two algorithms under study are
* `cohen_sutherland_clip` ("Krrish Nyoupane/Lab 5/lineclippingvisualization.py"),
  an outcode-based clipper built from a `while True` loop, and
* `liang_barsky` ("Smarika Gyawali/Lab 6/1.py") together with the variant
  `liang_barsky_ex1` ("Shrijan_BEI42/LAB7/Ex1.py"), parametric clippers.

The embedding works over `ℚ` (exact arithmetic).  Python's `/` raises
`ZeroDivisionError` on a zero denominator, so division is modelled by the
fallible `qdiv` and both clippers return a `ClipOut` with an explicit
`divZero` outcome.  The unbounded `while True` loop of Cohen–Sutherland is
modelled with explicit fuel (`fuelOut` marks fuel exhaustion); fuel is only
consumed by the third, intersection-computing case of the loop body, so
"`fuel` productive iterations suffice" is expressed as "`csRun` with that
fuel never returns `fuelOut`".
-/

/-- Result of a clipping call.  `accept` carries the returned 4-tuple,
`reject` is Python's `None` ("line outside"), `divZero` marks a raised
`ZeroDivisionError`, and `fuelOut` marks exhaustion of the loop fuel
(only ever produced by the Cohen–Sutherland model). -/
inductive ClipOut where
  | accept : ℚ → ℚ → ℚ → ℚ → ClipOut
  | reject : ClipOut
  | divZero : ClipOut
  | fuelOut : ClipOut
deriving DecidableEq, Repr

/-- Python division on rationals: `none` when the denominator is zero
(Python raises `ZeroDivisionError` there). -/
def qdiv (p q : ℚ) : Option ℚ :=
  if q = 0 then none else some (p / q)

/-- The outcode constants of the source. -/
def INSIDE : ℕ := 0

def LEFT : ℕ := 1

def RIGHT : ℕ := 2

def BOTTOM : ℕ := 4

def TOP : ℕ := 8

/-- `compute_code` of the Cohen–Sutherland source: starts from `INSIDE = 0`,
adds `LEFT` if `x < x_min` elif `RIGHT` if `x > x_max`, then adds `BOTTOM`
if `y < y_min` elif `TOP` if `y > y_max`. -/
def compute_code (x y x_min y_min x_max y_max : ℚ) : ℕ :=
  (if x < x_min then LEFT else if x > x_max then RIGHT else INSIDE) +
    (if y < y_min then BOTTOM else if y > y_max then TOP else INSIDE)

/-- One pass of the `while True` body of `cohen_sutherland_clip`:
either a terminal result (`done`) or the updated endpoints (`cont`). -/
inductive StepRes where
  | done : ClipOut → StepRes
  | cont : ℚ → ℚ → ℚ → ℚ → StepRes
deriving DecidableEq, Repr

/-- The body of `cohen_sutherland_clip`'s loop, straight from the source:
trivial accept, trivial reject, or computation of one edge intersection in
the priority order TOP, BOTTOM, RIGHT, LEFT, replacing the endpoint whose
code is `code_out`.  (The source ends with `elif code_out & LEFT:`; that
guard holds whenever the three previous ones fail, because `code_out ≠ 0`
at this point, so it is rendered as the final `else`.) -/
def csStep (x0 y0 x1 y1 x_min y_min x_max y_max : ℚ) : StepRes :=
  let code0 := compute_code x0 y0 x_min y_min x_max y_max
  let code1 := compute_code x1 y1 x_min y_min x_max y_max
  if code0 = 0 ∧ code1 = 0 then .done (.accept x0 y0 x1 y1)
  else if code0 &&& code1 ≠ 0 then .done .reject
  else
    let code_out := if code0 ≠ 0 then code0 else code1
    let pt : Option (ℚ × ℚ) :=
      if code_out &&& TOP ≠ 0 then
        (qdiv ((x1 - x0) * (y_max - y0)) (y1 - y0)).map (fun v => (x0 + v, y_max))
      else if code_out &&& BOTTOM ≠ 0 then
        (qdiv ((x1 - x0) * (y_min - y0)) (y1 - y0)).map (fun v => (x0 + v, y_min))
      else if code_out &&& RIGHT ≠ 0 then
        (qdiv ((y1 - y0) * (x_max - x0)) (x1 - x0)).map (fun v => (x_max, y0 + v))
      else
        (qdiv ((y1 - y0) * (x_min - x0)) (x1 - x0)).map (fun v => (x_min, y0 + v))
    match pt with
    | none => .done .divZero
    | some (x, y) =>
      if code_out = code0 then .cont x y x1 y1
      else .cont x0 y0 x y

/-- `cohen_sutherland_clip`, with the `while True` loop run on explicit
fuel: fuel is consumed exactly by the intersection-computing third case. -/
def csRun (x_min y_min x_max y_max : ℚ) : ℕ → ℚ → ℚ → ℚ → ℚ → ClipOut
  | fuel, x0, y0, x1, y1 =>
    match csStep x0 y0 x1 y1 x_min y_min x_max y_max, fuel with
    | .done r, _ => r
    | .cont _ _ _ _, 0 => .fuelOut
    | .cont nx0 ny0 nx1 ny1, fuel + 1 =>
      csRun x_min y_min x_max y_max fuel nx0 ny0 nx1 ny1

/-- State of the Liang–Barsky boundary loop: the running `(u1, u2)` pair,
an early `return None` (`out`), or a raised `ZeroDivisionError` (`dz`). -/
inductive LBState where
  | ok : ℚ → ℚ → LBState
  | out : LBState
  | dz : LBState
deriving DecidableEq, Repr

/-- One iteration of the `for pi, qi in zip(p, q)` loop of `liang_barsky`
(Smarika Gyawali's version, with `u1 = max(u1, t)` / `u2 = min(u2, t)`). -/
def lbStep : LBState → ℚ × ℚ → LBState
  | .ok u1 u2, (p, q) =>
    if p = 0 then
      if q < 0 then .out else .ok u1 u2
    else
      match qdiv q p with
      | none => .dz
      | some t => if p < 0 then .ok (max u1 t) u2 else .ok u1 (min u2 t)
  | s, _ => s

/-- The boundary loop, folded over the zipped `(p, q)` list. -/
def lbFold (s : LBState) (l : List (ℚ × ℚ)) : LBState :=
  l.foldl lbStep s

/-- `liang_barsky` from "Smarika Gyawali/Lab 6/1.py". -/
def liang_barsky (x1 y1 x2 y2 xmin ymin xmax ymax : ℚ) : ClipOut :=
  let dx := x2 - x1
  let dy := y2 - y1
  let p : List ℚ := [-dx, dx, -dy, dy]
  let q : List ℚ := [x1 - xmin, xmax - x1, y1 - ymin, ymax - y1]
  match lbFold (.ok 0 1) (p.zip q) with
  | .out => .reject
  | .dz => .divZero
  | .ok u1 u2 =>
    if u1 > u2 then .reject
    else .accept (x1 + u1 * dx) (y1 + u1 * dy) (x1 + u2 * dx) (y1 + u2 * dy)

/-- One iteration of the `while i < 4` loop of Shrijan's `liang_barsky`
(`if t > u1: u1 = t` / `if t < u2: u2 = t`). -/
def lbStepEx1 : LBState → ℚ × ℚ → LBState
  | .ok u1 u2, (p, q) =>
    if p = 0 then
      if q < 0 then .out else .ok u1 u2
    else
      match qdiv q p with
      | none => .dz
      | some t =>
        if p < 0 then
          if t > u1 then .ok t u2 else .ok u1 u2
        else
          if t < u2 then .ok u1 t else .ok u1 u2
  | s, _ => s

/-- `liang_barsky` from "Shrijan_BEI42/LAB7/Ex1.py". -/
def liang_barsky_ex1 (x1 y1 x2 y2 xmin ymin xmax ymax : ℚ) : ClipOut :=
  let dx := x2 - x1
  let dy := y2 - y1
  let p : List ℚ := [-dx, dx, -dy, dy]
  let q : List ℚ := [x1 - xmin, xmax - x1, y1 - ymin, ymax - y1]
  match (p.zip q).foldl lbStepEx1 (.ok 0 1) with
  | .out => .reject
  | .dz => .divZero
  | .ok u1 u2 =>
    if u1 > u2 then .reject
    else .accept (x1 + u1 * dx) (y1 + u1 * dy) (x1 + u2 * dx) (y1 + u2 * dy)

/-- Membership of a point in the clip window. -/
def inWin (x_min y_min x_max y_max x y : ℚ) : Prop :=
  x_min ≤ x ∧ x ≤ x_max ∧ y_min ≤ y ∧ y ≤ y_max

instance (x_min y_min x_max y_max x y : ℚ) :
    Decidable (inWin x_min y_min x_max y_max x y) := by
  unfold inWin; infer_instance

/-- Number of window edges whose constraint both current endpoints satisfy. -/
def nsat (a b c d x0 y0 x1 y1 : ℚ) : ℕ :=
  (if a ≤ x0 ∧ a ≤ x1 then 1 else 0) + (if x0 ≤ c ∧ x1 ≤ c then 1 else 0) +
    (if b ≤ y0 ∧ b ≤ y1 then 1 else 0) + (if y0 ≤ d ∧ y1 ≤ d then 1 else 0)

/-- The halfplane constraint `p * t ≤ q` that a `(p, q)` boundary pair
imposes on the segment parameter `t`. -/
def consSat (t : ℚ) (pq : ℚ × ℚ) : Prop := pq.1 * t ≤ pq.2

/-- A point of the clipped output lies on the input segment: it is
`p0 + t (p1 - p0)` for some `t ∈ [0, 1]`. -/
def onSeg (x0 y0 x1 y1 x y : ℚ) : Prop :=
  ∃ t : ℚ, 0 ≤ t ∧ t ≤ 1 ∧ x = x0 + t * (x1 - x0) ∧ y = y0 + t * (y1 - y0)

/-! ### Outcode lemmas -/

/-- Bit 8 (TOP) of an outcode `xc + yc`. -/
lemma land_top (xc yc : ℕ) (hx : xc = 0 ∨ xc = 1 ∨ xc = 2)
    (hy : yc = 0 ∨ yc = 4 ∨ yc = 8) : ((xc + yc) &&& 8 ≠ 0) ↔ yc = 8 := by
  rcases hx with rfl | rfl | rfl <;> rcases hy with rfl | rfl | rfl <;> decide

/-- Bit 4 (BOTTOM) of an outcode `xc + yc`. -/
lemma land_bottom (xc yc : ℕ) (hx : xc = 0 ∨ xc = 1 ∨ xc = 2)
    (hy : yc = 0 ∨ yc = 4 ∨ yc = 8) : ((xc + yc) &&& 4 ≠ 0) ↔ yc = 4 := by
  rcases hx with rfl | rfl | rfl <;> rcases hy with rfl | rfl | rfl <;> decide

/-- Bit 2 (RIGHT) of an outcode `xc + yc`. -/
lemma land_right (xc yc : ℕ) (hx : xc = 0 ∨ xc = 1 ∨ xc = 2)
    (hy : yc = 0 ∨ yc = 4 ∨ yc = 8) : ((xc + yc) &&& 2 ≠ 0) ↔ xc = 2 := by
  rcases hx with rfl | rfl | rfl <;> rcases hy with rfl | rfl | rfl <;> decide

/-- Bit 1 (LEFT) of an outcode `xc + yc`. -/
lemma land_left (xc yc : ℕ) (hx : xc = 0 ∨ xc = 1 ∨ xc = 2)
    (hy : yc = 0 ∨ yc = 4 ∨ yc = 8) : ((xc + yc) &&& 1 ≠ 0) ↔ xc = 1 := by
  rcases hx with rfl | rfl | rfl <;> rcases hy with rfl | rfl | rfl <;> decide

lemma xpart_mem (x a c : ℚ) :
    (if x < a then (1 : ℕ) else if x > c then 2 else 0) = 0 ∨
      (if x < a then (1 : ℕ) else if x > c then 2 else 0) = 1 ∨
      (if x < a then (1 : ℕ) else if x > c then 2 else 0) = 2 := by
  split_ifs <;> simp

lemma ypart_mem (y b d : ℚ) :
    (if y < b then (4 : ℕ) else if y > d then 8 else 0) = 0 ∨
      (if y < b then (4 : ℕ) else if y > d then 8 else 0) = 4 ∨
      (if y < b then (4 : ℕ) else if y > d then 8 else 0) = 8 := by
  split_ifs <;> simp

/-- The possible values of an outcode. -/
lemma compute_code_mem (x y a b c d : ℚ) :
    compute_code x y a b c d ∈ ([0, 1, 2, 4, 5, 6, 8, 9, 10] : List ℕ) := by
  unfold compute_code LEFT RIGHT BOTTOM TOP INSIDE
  split_ifs <;> simp

lemma code_eq_zero (x y a b c d : ℚ) :
    compute_code x y a b c d = 0 ↔ (¬ x < a ∧ ¬ x > c ∧ ¬ y < b ∧ ¬ y > d) := by
  unfold compute_code LEFT RIGHT BOTTOM TOP INSIDE
  split_ifs <;> simp_all

lemma code_top (x y a b c d : ℚ) :
    compute_code x y a b c d &&& TOP ≠ 0 ↔ (¬ y < b ∧ y > d) := by
  unfold compute_code LEFT RIGHT BOTTOM TOP INSIDE
  rw [land_top _ _ (xpart_mem x a c) (ypart_mem y b d)]
  split_ifs <;> simp_all

lemma code_bottom (x y a b c d : ℚ) :
    compute_code x y a b c d &&& BOTTOM ≠ 0 ↔ y < b := by
  unfold compute_code LEFT RIGHT BOTTOM TOP INSIDE
  rw [land_bottom _ _ (xpart_mem x a c) (ypart_mem y b d)]
  split_ifs <;> simp_all

lemma code_right (x y a b c d : ℚ) :
    compute_code x y a b c d &&& RIGHT ≠ 0 ↔ (¬ x < a ∧ x > c) := by
  unfold compute_code LEFT RIGHT BOTTOM TOP INSIDE
  rw [land_right _ _ (xpart_mem x a c) (ypart_mem y b d)]
  split_ifs <;> simp_all

lemma code_left (x y a b c d : ℚ) :
    compute_code x y a b c d &&& LEFT ≠ 0 ↔ x < a := by
  unfold compute_code LEFT RIGHT BOTTOM TOP INSIDE
  rw [land_left _ _ (xpart_mem x a c) (ypart_mem y b d)]
  split_ifs <;> simp_all

/-- If two outcodes have no common bit and the first has bit `k` set, the
second does not. -/
lemma code_pair_bit (k m n : ℕ) (hk : k ∈ ([1, 2, 4, 8] : List ℕ))
    (hm : m ∈ ([0, 1, 2, 4, 5, 6, 8, 9, 10] : List ℕ))
    (hn : n ∈ ([0, 1, 2, 4, 5, 6, 8, 9, 10] : List ℕ))
    (h : m &&& n = 0) (ht : m &&& k ≠ 0) : n &&& k = 0 := by
  fin_cases hk <;> fin_cases hm <;> fin_cases hn <;> revert h ht <;> decide

/-- Two outcodes sharing a set bit `k` have nonzero bitwise AND. -/
lemma code_pair_share (k m n : ℕ) (hk : k ∈ ([1, 2, 4, 8] : List ℕ))
    (hm : m ∈ ([0, 1, 2, 4, 5, 6, 8, 9, 10] : List ℕ))
    (hn : n ∈ ([0, 1, 2, 4, 5, 6, 8, 9, 10] : List ℕ))
    (h1 : m &&& k ≠ 0) (h2 : n &&& k ≠ 0) : m &&& n ≠ 0 := by
  fin_cases hk <;> fin_cases hm <;> fin_cases hn <;> revert h1 h2 <;> decide

/-! ### Cohen-Sutherland: loop structure -/

lemma csRun_done {x0 y0 x1 y1 a b c d : ℚ} {r : ClipOut} (fuel : ℕ)
    (h : csStep x0 y0 x1 y1 a b c d = .done r) :
    csRun a b c d fuel x0 y0 x1 y1 = r := by
  cases fuel <;> · unfold csRun; rw [h]

lemma csRun_cont {x0 y0 x1 y1 a b c d n0 n1 n2 n3 : ℚ} (fuel : ℕ)
    (h : csStep x0 y0 x1 y1 a b c d = .cont n0 n1 n2 n3) :
    csRun a b c d (fuel + 1) x0 y0 x1 y1 = csRun a b c d fuel n0 n1 n2 n3 := by
  conv_lhs => unfold csRun
  rw [h]

lemma csRun_cont_zero {x0 y0 x1 y1 a b c d n0 n1 n2 n3 : ℚ}
    (h : csStep x0 y0 x1 y1 a b c d = .cont n0 n1 n2 n3) :
    csRun a b c d 0 x0 y0 x1 y1 = .fuelOut := by
  unfold csRun; rw [h]

lemma csStep_accept {x0 y0 x1 y1 a b c d : ℚ}
    (h0 : compute_code x0 y0 a b c d = 0) (h1 : compute_code x1 y1 a b c d = 0) :
    csStep x0 y0 x1 y1 a b c d = .done (.accept x0 y0 x1 y1) := by
  unfold csStep
  simp [h0, h1]

lemma csStep_reject {x0 y0 x1 y1 a b c d : ℚ}
    (hnz : ¬ (compute_code x0 y0 a b c d = 0 ∧ compute_code x1 y1 a b c d = 0))
    (hand : compute_code x0 y0 a b c d &&& compute_code x1 y1 a b c d ≠ 0) :
    csStep x0 y0 x1 y1 a b c d = .done .reject := by
  unfold csStep
  rw [if_neg hnz, if_pos hand]

/-- A nonzero outcode with bits 8, 4, 2 clear has bit 1 (LEFT) set. -/
lemma code_left_of (m : ℕ) (hm : m ∈ ([0, 1, 2, 4, 5, 6, 8, 9, 10] : List ℕ))
    (h0 : m ≠ 0) (h8 : m &&& 8 = 0) (h4 : m &&& 4 = 0) (h2 : m &&& 2 = 0) :
    m &&& 1 ≠ 0 := by
  fin_cases hm <;> revert h0 h8 h4 h2 <;> decide

/-- Full case inversion of one loop pass: trivial accept, trivial reject, or
one of eight intersection branches (edge TOP/BOTTOM/RIGHT/LEFT × replaced
endpoint), each together with the inequalities holding there.  No
window-validity assumption is made; in particular every reached division
has a nonzero denominator, so `divZero` never arises. -/
lemma csStep_inv (x0 y0 x1 y1 a b c d : ℚ) :
    (csStep x0 y0 x1 y1 a b c d = .done (.accept x0 y0 x1 y1) ∧
       compute_code x0 y0 a b c d = 0 ∧ compute_code x1 y1 a b c d = 0) ∨
    (csStep x0 y0 x1 y1 a b c d = .done .reject ∧
       compute_code x0 y0 a b c d &&& compute_code x1 y1 a b c d ≠ 0 ∧
       ¬ (compute_code x0 y0 a b c d = 0 ∧ compute_code x1 y1 a b c d = 0)) ∨
    (csStep x0 y0 x1 y1 a b c d =
         .cont (x0 + (x1 - x0) * (d - y0) / (y1 - y0)) d x1 y1 ∧
       ¬ y0 < b ∧ d < y0 ∧ (y1 < b ∨ y1 ≤ d)) ∨
    (csStep x0 y0 x1 y1 a b c d =
         .cont (x0 + (x1 - x0) * (b - y0) / (y1 - y0)) b x1 y1 ∧
       y0 < b ∧ b ≤ y1) ∨
    (csStep x0 y0 x1 y1 a b c d =
         .cont c (y0 + (y1 - y0) * (c - x0) / (x1 - x0)) x1 y1 ∧
       ¬ x0 < a ∧ c < x0 ∧ (x1 < a ∨ x1 ≤ c)) ∨
    (csStep x0 y0 x1 y1 a b c d =
         .cont a (y0 + (y1 - y0) * (a - x0) / (x1 - x0)) x1 y1 ∧
       x0 < a ∧ a ≤ x1) ∨
    (csStep x0 y0 x1 y1 a b c d =
         .cont x0 y0 (x0 + (x1 - x0) * (d - y0) / (y1 - y0)) d ∧
       inWin a b c d x0 y0 ∧ ¬ y1 < b ∧ d < y1) ∨
    (csStep x0 y0 x1 y1 a b c d =
         .cont x0 y0 (x0 + (x1 - x0) * (b - y0) / (y1 - y0)) b ∧
       inWin a b c d x0 y0 ∧ y1 < b) ∨
    (csStep x0 y0 x1 y1 a b c d =
         .cont x0 y0 c (y0 + (y1 - y0) * (c - x0) / (x1 - x0)) ∧
       inWin a b c d x0 y0 ∧ ¬ x1 < a ∧ c < x1) ∨
    (csStep x0 y0 x1 y1 a b c d =
         .cont x0 y0 a (y0 + (y1 - y0) * (a - x0) / (x1 - x0)) ∧
       inWin a b c d x0 y0 ∧ x1 < a) := by
  by_cases h00 : compute_code x0 y0 a b c d = 0 ∧ compute_code x1 y1 a b c d = 0
  · exact Or.inl ⟨csStep_accept h00.1 h00.2, h00⟩
  by_cases hsh : compute_code x0 y0 a b c d &&& compute_code x1 y1 a b c d ≠ 0
  · exact Or.inr (Or.inl ⟨csStep_reject h00 hsh, hsh, h00⟩)
  push_neg at hsh
  have hm0 := compute_code_mem x0 y0 a b c d
  have hm1 := compute_code_mem x1 y1 a b c d
  by_cases hw : compute_code x0 y0 a b c d = 0
  · -- the replaced endpoint is endpoint 1; endpoint 0 lies in the window
    have hw1 : compute_code x1 y1 a b c d ≠ 0 := fun h1 => h00 ⟨hw, h1⟩
    have hp0 : inWin a b c d x0 y0 := by
      have h := (code_eq_zero x0 y0 a b c d).1 hw
      exact ⟨not_lt.1 h.1, not_lt.1 h.2.1, not_lt.1 h.2.2.1, not_lt.1 h.2.2.2⟩
    by_cases h8 : compute_code x1 y1 a b c d &&& TOP ≠ 0
    · have ht := (code_top x1 y1 a b c d).1 h8
      have hden : y1 - y0 ≠ 0 :=
        sub_ne_zero.2 (ne_of_gt (lt_of_le_of_lt hp0.2.2.2 ht.2))
      refine Or.inr (Or.inr (Or.inr (Or.inr (Or.inr (Or.inr (Or.inl
        ⟨?_, hp0, ht.1, ht.2⟩))))))
      unfold csStep qdiv
      simp [hw, hw1, h8, hsh, hden]
    push_neg at h8
    by_cases h4 : compute_code x1 y1 a b c d &&& BOTTOM ≠ 0
    · have hb := (code_bottom x1 y1 a b c d).1 h4
      have hden : y1 - y0 ≠ 0 :=
        sub_ne_zero.2 (ne_of_lt (lt_of_lt_of_le hb hp0.2.2.1))
      refine Or.inr (Or.inr (Or.inr (Or.inr (Or.inr (Or.inr (Or.inr (Or.inl
        ⟨?_, hp0, hb⟩)))))))
      unfold csStep qdiv
      simp [hw, hw1, h8, h4, hsh, hden]
    push_neg at h4
    by_cases h2 : compute_code x1 y1 a b c d &&& RIGHT ≠ 0
    · have hr := (code_right x1 y1 a b c d).1 h2
      have hden : x1 - x0 ≠ 0 :=
        sub_ne_zero.2 (ne_of_gt (lt_of_le_of_lt hp0.2.1 hr.2))
      refine Or.inr (Or.inr (Or.inr (Or.inr (Or.inr (Or.inr (Or.inr (Or.inr
        (Or.inl ⟨?_, hp0, hr.1, hr.2⟩))))))))
      unfold csStep qdiv
      simp [hw, hw1, h8, h4, h2, hsh, hden]
    push_neg at h2
    have h1b : compute_code x1 y1 a b c d &&& LEFT ≠ 0 :=
      code_left_of _ hm1 hw1 h8 h4 h2
    have hl := (code_left x1 y1 a b c d).1 h1b
    have hden : x1 - x0 ≠ 0 :=
      sub_ne_zero.2 (ne_of_lt (lt_of_lt_of_le hl hp0.1))
    refine Or.inr (Or.inr (Or.inr (Or.inr (Or.inr (Or.inr (Or.inr (Or.inr
      (Or.inr ⟨?_, hp0, hl⟩))))))))
    unfold csStep qdiv
    simp [hw, hw1, h8, h4, h2, h1b, hsh, hden]
  · -- the replaced endpoint is endpoint 0
    by_cases h8 : compute_code x0 y0 a b c d &&& TOP ≠ 0
    · have ht := (code_top x0 y0 a b c d).1 h8
      have hn8 : compute_code x1 y1 a b c d &&& TOP = 0 :=
        code_pair_bit TOP _ _ (by decide) hm0 hm1 hsh h8
      have ht1 : y1 < b ∨ y1 ≤ d := by
        by_cases hby : y1 < b
        · exact Or.inl hby
        · exact Or.inr (not_lt.1 fun hd =>
            (code_top x1 y1 a b c d).2 ⟨hby, hd⟩ hn8)
      have hden : y1 - y0 ≠ 0 := by
        refine sub_ne_zero.2 (ne_of_lt ?_)
        rcases ht1 with h | h
        · exact lt_of_lt_of_le h (not_lt.1 ht.1)
        · exact lt_of_le_of_lt h ht.2
      refine Or.inr (Or.inr (Or.inl ⟨?_, ht.1, ht.2, ht1⟩))
      unfold csStep qdiv
      simp [hw, h00, h8, hsh, hden]
    push_neg at h8
    by_cases h4 : compute_code x0 y0 a b c d &&& BOTTOM ≠ 0
    · have hb := (code_bottom x0 y0 a b c d).1 h4
      have hn4 : compute_code x1 y1 a b c d &&& BOTTOM = 0 :=
        code_pair_bit BOTTOM _ _ (by decide) hm0 hm1 hsh h4
      have hb1 : b ≤ y1 :=
        not_lt.1 fun hc => (code_bottom x1 y1 a b c d).2 hc hn4
      have hden : y1 - y0 ≠ 0 :=
        sub_ne_zero.2 (ne_of_gt (lt_of_lt_of_le hb hb1))
      refine Or.inr (Or.inr (Or.inr (Or.inl ⟨?_, hb, hb1⟩)))
      unfold csStep qdiv
      simp [hw, h00, h8, h4, hsh, hden]
    push_neg at h4
    by_cases h2 : compute_code x0 y0 a b c d &&& RIGHT ≠ 0
    · have hr := (code_right x0 y0 a b c d).1 h2
      have hn2 : compute_code x1 y1 a b c d &&& RIGHT = 0 :=
        code_pair_bit RIGHT _ _ (by decide) hm0 hm1 hsh h2
      have hr1 : x1 < a ∨ x1 ≤ c := by
        by_cases hax : x1 < a
        · exact Or.inl hax
        · exact Or.inr (not_lt.1 fun hc =>
            (code_right x1 y1 a b c d).2 ⟨hax, hc⟩ hn2)
      have hden : x1 - x0 ≠ 0 := by
        refine sub_ne_zero.2 (ne_of_lt ?_)
        rcases hr1 with h | h
        · exact lt_of_lt_of_le h (not_lt.1 hr.1)
        · exact lt_of_le_of_lt h hr.2
      refine Or.inr (Or.inr (Or.inr (Or.inr (Or.inl ⟨?_, hr.1, hr.2, hr1⟩))))
      unfold csStep qdiv
      simp [hw, h00, h8, h4, h2, hsh, hden]
    push_neg at h2
    have h1b : compute_code x0 y0 a b c d &&& LEFT ≠ 0 :=
      code_left_of _ hm0 hw h8 h4 h2
    have hl := (code_left x0 y0 a b c d).1 h1b
    have hn1 : compute_code x1 y1 a b c d &&& LEFT = 0 :=
      code_pair_bit LEFT _ _ (by decide) hm0 hm1 hsh h1b
    have ha1 : a ≤ x1 :=
      not_lt.1 fun hc => (code_left x1 y1 a b c d).2 hc hn1
    have hden : x1 - x0 ≠ 0 :=
      sub_ne_zero.2 (ne_of_gt (lt_of_lt_of_le hl ha1))
    refine Or.inr (Or.inr (Or.inr (Or.inr (Or.inr (Or.inl ⟨?_, hl, ha1⟩)))))
    unfold csStep qdiv
    simp [hw, h00, h8, h4, h2, h1b, hsh, hden]

/-- `csStep` never raises a `ZeroDivisionError`: whenever one of the four
divisions is reached, the trivial-reject test has already ensured that the
other endpoint is strictly on the other side of the edge, so the
denominator is nonzero.  (No window-validity assumption is needed.) -/
lemma csStep_ne_divZero (x0 y0 x1 y1 a b c d : ℚ) :
    csStep x0 y0 x1 y1 a b c d ≠ .done .divZero := by
  rcases csStep_inv x0 y0 x1 y1 a b c d with
    ⟨h, -⟩ | ⟨h, -⟩ | ⟨h, -⟩ | ⟨h, -⟩ | ⟨h, -⟩ | ⟨h, -⟩ | ⟨h, -⟩ | ⟨h, -⟩ |
    ⟨h, -⟩ | ⟨h, -⟩ <;> simp [h]

lemma csRun_ne_divZero (a b c d : ℚ) :
    ∀ (fuel : ℕ) (x0 y0 x1 y1 : ℚ),
      csRun a b c d fuel x0 y0 x1 y1 ≠ .divZero := by
  intro fuel
  induction fuel with
  | zero =>
    intro x0 y0 x1 y1
    cases hstep : csStep x0 y0 x1 y1 a b c d with
    | done r =>
      rw [csRun_done 0 hstep]
      rintro rfl
      exact csStep_ne_divZero x0 y0 x1 y1 a b c d hstep
    | cont n0 n1 n2 n3 =>
      rw [csRun_cont_zero hstep]
      simp
  | succ fuel ih =>
    intro x0 y0 x1 y1
    cases hstep : csStep x0 y0 x1 y1 a b c d with
    | done r =>
      rw [csRun_done (fuel + 1) hstep]
      rintro rfl
      exact csStep_ne_divZero x0 y0 x1 y1 a b c d hstep
    | cont n0 n1 n2 n3 =>
      rw [csRun_cont fuel hstep]
      exact ih n0 n1 n2 n3

/-- When `cohen_sutherland_clip` accepts, the returned endpoints are the
final loop state and both have outcode `0`. -/
lemma csRun_accept_codes (a b c d : ℚ) :
    ∀ (fuel : ℕ) (x0 y0 x1 y1 r0 r1 r2 r3 : ℚ),
      csRun a b c d fuel x0 y0 x1 y1 = .accept r0 r1 r2 r3 →
      compute_code r0 r1 a b c d = 0 ∧ compute_code r2 r3 a b c d = 0 := by
  intro fuel
  induction fuel with
  | zero =>
    intro x0 y0 x1 y1 r0 r1 r2 r3 h
    cases hstep : csStep x0 y0 x1 y1 a b c d with
    | done r =>
      rw [csRun_done 0 hstep] at h
      subst h
      rcases csStep_inv x0 y0 x1 y1 a b c d with
        ⟨h', hc⟩ | ⟨h', -⟩ | ⟨h', -⟩ | ⟨h', -⟩ | ⟨h', -⟩ | ⟨h', -⟩ | ⟨h', -⟩ |
        ⟨h', -⟩ | ⟨h', -⟩ | ⟨h', -⟩ <;> rw [hstep] at h' <;>
        first
        | (injection h' with h''
           injection h'' with e0 e1 e2 e3
           subst e0; subst e1; subst e2; subst e3
           exact hc)
        | (exfalso; exact absurd h' (by simp))
    | cont n0 n1 n2 n3 =>
      rw [csRun_cont_zero hstep] at h
      exact absurd h (by simp)
  | succ fuel ih =>
    intro x0 y0 x1 y1 r0 r1 r2 r3 h
    cases hstep : csStep x0 y0 x1 y1 a b c d with
    | done r =>
      rw [csRun_done (fuel + 1) hstep] at h
      subst h
      rcases csStep_inv x0 y0 x1 y1 a b c d with
        ⟨h', hc⟩ | ⟨h', -⟩ | ⟨h', -⟩ | ⟨h', -⟩ | ⟨h', -⟩ | ⟨h', -⟩ | ⟨h', -⟩ |
        ⟨h', -⟩ | ⟨h', -⟩ | ⟨h', -⟩ <;> rw [hstep] at h' <;>
        first
        | (injection h' with h''
           injection h'' with e0 e1 e2 e3
           subst e0; subst e1; subst e2; subst e3
           exact hc)
        | (exfalso; exact absurd h' (by simp))
    | cont n0 n1 n2 n3 =>
      rw [csRun_cont fuel hstep] at h
      exact ih n0 n1 n2 n3 r0 r1 r2 r3 h

/-! ### Cohen-Sutherland: termination counting -/

lemma ind_mono {p q : Prop} [Decidable p] [Decidable q] (h : p → q) :
    (if p then (1 : ℕ) else 0) ≤ if q then 1 else 0 := by
  by_cases hp : p
  · rw [if_pos hp, if_pos (h hp)]
  · rw [if_neg hp]; exact Nat.zero_le _

lemma nsat_le_four (a b c d x0 y0 x1 y1 : ℚ) :
    nsat a b c d x0 y0 x1 y1 ≤ 4 := by
  unfold nsat; split_ifs <;> omega

lemma convex_le {u v T L : ℚ} (hT0 : 0 ≤ T) (hT1 : T ≤ 1)
    (hu : L ≤ u) (hv : L ≤ v) : L ≤ u + (v - u) * T := by
  nlinarith [mul_nonneg (sub_nonneg.2 hu) (sub_nonneg.2 hT1),
    mul_nonneg (sub_nonneg.2 hv) hT0]

lemma convex_ge {u v T U : ℚ} (hT0 : 0 ≤ T) (hT1 : T ≤ 1)
    (hu : u ≤ U) (hv : v ≤ U) : u + (v - u) * T ≤ U := by
  nlinarith [mul_nonneg (sub_nonneg.2 hu) (sub_nonneg.2 hT1),
    mul_nonneg (sub_nonneg.2 hv) hT0]

lemma nsat_lt_left {a b c d x0 y0 x1 y1 x0' y0' x1' y1' : ℚ}
    (hR : (x0 ≤ c ∧ x1 ≤ c) → (x0' ≤ c ∧ x1' ≤ c))
    (hB : (b ≤ y0 ∧ b ≤ y1) → (b ≤ y0' ∧ b ≤ y1'))
    (hT : (y0 ≤ d ∧ y1 ≤ d) → (y0' ≤ d ∧ y1' ≤ d))
    (hold : ¬ (a ≤ x0 ∧ a ≤ x1)) (hnew : a ≤ x0' ∧ a ≤ x1') :
    nsat a b c d x0 y0 x1 y1 < nsat a b c d x0' y0' x1' y1' := by
  unfold nsat
  have h1 := ind_mono hR
  have h2 := ind_mono hB
  have h3 := ind_mono hT
  rw [if_neg hold, if_pos hnew]
  omega

lemma nsat_lt_right {a b c d x0 y0 x1 y1 x0' y0' x1' y1' : ℚ}
    (hL : (a ≤ x0 ∧ a ≤ x1) → (a ≤ x0' ∧ a ≤ x1'))
    (hB : (b ≤ y0 ∧ b ≤ y1) → (b ≤ y0' ∧ b ≤ y1'))
    (hT : (y0 ≤ d ∧ y1 ≤ d) → (y0' ≤ d ∧ y1' ≤ d))
    (hold : ¬ (x0 ≤ c ∧ x1 ≤ c)) (hnew : x0' ≤ c ∧ x1' ≤ c) :
    nsat a b c d x0 y0 x1 y1 < nsat a b c d x0' y0' x1' y1' := by
  unfold nsat
  have h1 := ind_mono hL
  have h2 := ind_mono hB
  have h3 := ind_mono hT
  rw [if_neg hold, if_pos hnew]
  omega

lemma nsat_lt_bottom {a b c d x0 y0 x1 y1 x0' y0' x1' y1' : ℚ}
    (hL : (a ≤ x0 ∧ a ≤ x1) → (a ≤ x0' ∧ a ≤ x1'))
    (hR : (x0 ≤ c ∧ x1 ≤ c) → (x0' ≤ c ∧ x1' ≤ c))
    (hT : (y0 ≤ d ∧ y1 ≤ d) → (y0' ≤ d ∧ y1' ≤ d))
    (hold : ¬ (b ≤ y0 ∧ b ≤ y1)) (hnew : b ≤ y0' ∧ b ≤ y1') :
    nsat a b c d x0 y0 x1 y1 < nsat a b c d x0' y0' x1' y1' := by
  unfold nsat
  have h1 := ind_mono hL
  have h2 := ind_mono hR
  have h3 := ind_mono hT
  rw [if_neg hold, if_pos hnew]
  omega

lemma nsat_lt_top {a b c d x0 y0 x1 y1 x0' y0' x1' y1' : ℚ}
    (hL : (a ≤ x0 ∧ a ≤ x1) → (a ≤ x0' ∧ a ≤ x1'))
    (hR : (x0 ≤ c ∧ x1 ≤ c) → (x0' ≤ c ∧ x1' ≤ c))
    (hB : (b ≤ y0 ∧ b ≤ y1) → (b ≤ y0' ∧ b ≤ y1'))
    (hold : ¬ (y0 ≤ d ∧ y1 ≤ d)) (hnew : y0' ≤ d ∧ y1' ≤ d) :
    nsat a b c d x0 y0 x1 y1 < nsat a b c d x0' y0' x1' y1' := by
  unfold nsat
  have h1 := ind_mono hL
  have h2 := ind_mono hR
  have h3 := ind_mono hB
  rw [if_neg hold, if_pos hnew]
  omega

lemma csStep_ne_fuelOut (x0 y0 x1 y1 a b c d : ℚ) :
    csStep x0 y0 x1 y1 a b c d ≠ .done .fuelOut := by
  rcases csStep_inv x0 y0 x1 y1 a b c d with
    ⟨h, -⟩ | ⟨h, -⟩ | ⟨h, -⟩ | ⟨h, -⟩ | ⟨h, -⟩ | ⟨h, -⟩ | ⟨h, -⟩ | ⟨h, -⟩ |
    ⟨h, -⟩ | ⟨h, -⟩ <;> simp [h]

/-- For a valid window, each intersection-computing pass strictly increases
the number of edge constraints satisfied by both endpoints: the processed
edge's constraint becomes satisfied (the endpoint lands on the edge) and
the other three are preserved (the new point is a convex combination of
the old endpoints). -/
lemma csStep_cont_nsat {x0 y0 x1 y1 x0' y0' x1' y1' a b c d : ℚ}
    (hac : a ≤ c) (hbd : b ≤ d)
    (h : csStep x0 y0 x1 y1 a b c d = .cont x0' y0' x1' y1') :
    nsat a b c d x0 y0 x1 y1 < nsat a b c d x0' y0' x1' y1' := by
  rcases csStep_inv x0 y0 x1 y1 a b c d with
    ⟨h', -⟩ | ⟨h', -⟩ | ⟨h', hyb, hdy, hy1⟩ | ⟨h', hyb, hy1⟩ |
    ⟨h', hxa, hdx, hx1⟩ | ⟨h', hxa, hx1⟩ | ⟨h', hp0, hyb, hdy⟩ |
    ⟨h', hp0, hyb⟩ | ⟨h', hp0, hxa, hdx⟩ | ⟨h', hp0, hxa⟩
  · rw [h'] at h; exact absurd h (by simp)
  · rw [h'] at h; exact absurd h (by simp)
  · -- endpoint 0 clipped to TOP edge
    rw [h'] at h
    injection h with e0 e1 e2 e3
    subst e0; subst e1; subst e2; subst e3
    have hy1' : y1 ≤ d := by rcases hy1 with h | h <;> linarith
    have hden : (y1 - y0 : ℚ) ≠ 0 := ne_of_lt (by linarith)
    set T : ℚ := (d - y0) / (y1 - y0) with hTdef
    have hc : T * (y1 - y0) = d - y0 := div_mul_cancel₀ _ hden
    have hT0 : 0 ≤ T := by
      apply le_of_not_lt; intro hlt; nlinarith
    have hT1 : T ≤ 1 := by
      apply le_of_not_lt; intro hlt; nlinarith
    rw [show x0 + (x1 - x0) * (d - y0) / (y1 - y0) = x0 + (x1 - x0) * T by
      rw [hTdef, mul_div_assoc]]
    refine nsat_lt_top ?_ ?_ ?_ ?_ ?_
    · rintro ⟨u, v⟩; exact ⟨convex_le hT0 hT1 u v, v⟩
    · rintro ⟨u, v⟩; exact ⟨convex_ge hT0 hT1 u v, v⟩
    · rintro ⟨u, v⟩; exact ⟨hbd, v⟩
    · rintro ⟨u, v⟩; exact absurd u (not_le.2 hdy)
    · exact ⟨le_refl d, hy1'⟩
  · -- endpoint 0 clipped to BOTTOM edge
    rw [h'] at h
    injection h with e0 e1 e2 e3
    subst e0; subst e1; subst e2; subst e3
    have hden : (y1 - y0 : ℚ) ≠ 0 := ne_of_gt (by linarith)
    set T : ℚ := (b - y0) / (y1 - y0) with hTdef
    have hc : T * (y1 - y0) = b - y0 := div_mul_cancel₀ _ hden
    have hT0 : 0 ≤ T := by
      apply le_of_not_lt; intro hlt; nlinarith
    have hT1 : T ≤ 1 := by
      apply le_of_not_lt; intro hlt; nlinarith
    rw [show x0 + (x1 - x0) * (b - y0) / (y1 - y0) = x0 + (x1 - x0) * T by
      rw [hTdef, mul_div_assoc]]
    refine nsat_lt_bottom ?_ ?_ ?_ ?_ ?_
    · rintro ⟨u, v⟩; exact ⟨convex_le hT0 hT1 u v, v⟩
    · rintro ⟨u, v⟩; exact ⟨convex_ge hT0 hT1 u v, v⟩
    · rintro ⟨u, v⟩; exact ⟨hbd, v⟩
    · rintro ⟨u, v⟩; exact absurd u (not_le.2 hyb)
    · exact ⟨le_refl b, hy1⟩
  · -- endpoint 0 clipped to RIGHT edge
    rw [h'] at h
    injection h with e0 e1 e2 e3
    subst e0; subst e1; subst e2; subst e3
    have hx1' : x1 ≤ c := by rcases hx1 with h | h <;> linarith
    have hden : (x1 - x0 : ℚ) ≠ 0 := ne_of_lt (by linarith)
    set T : ℚ := (c - x0) / (x1 - x0) with hTdef
    have hc : T * (x1 - x0) = c - x0 := div_mul_cancel₀ _ hden
    have hT0 : 0 ≤ T := by
      apply le_of_not_lt; intro hlt; nlinarith
    have hT1 : T ≤ 1 := by
      apply le_of_not_lt; intro hlt; nlinarith
    rw [show y0 + (y1 - y0) * (c - x0) / (x1 - x0) = y0 + (y1 - y0) * T by
      rw [hTdef, mul_div_assoc]]
    refine nsat_lt_right ?_ ?_ ?_ ?_ ?_
    · rintro ⟨u, v⟩; exact ⟨hac, v⟩
    · rintro ⟨u, v⟩; exact ⟨convex_le hT0 hT1 u v, v⟩
    · rintro ⟨u, v⟩; exact ⟨convex_ge hT0 hT1 u v, v⟩
    · rintro ⟨u, v⟩; exact absurd u (not_le.2 hdx)
    · exact ⟨le_refl c, hx1'⟩
  · -- endpoint 0 clipped to LEFT edge
    rw [h'] at h
    injection h with e0 e1 e2 e3
    subst e0; subst e1; subst e2; subst e3
    have hden : (x1 - x0 : ℚ) ≠ 0 := ne_of_gt (by linarith)
    set T : ℚ := (a - x0) / (x1 - x0) with hTdef
    have hc : T * (x1 - x0) = a - x0 := div_mul_cancel₀ _ hden
    have hT0 : 0 ≤ T := by
      apply le_of_not_lt; intro hlt; nlinarith
    have hT1 : T ≤ 1 := by
      apply le_of_not_lt; intro hlt; nlinarith
    rw [show y0 + (y1 - y0) * (a - x0) / (x1 - x0) = y0 + (y1 - y0) * T by
      rw [hTdef, mul_div_assoc]]
    refine nsat_lt_left ?_ ?_ ?_ ?_ ?_
    · rintro ⟨u, v⟩; exact ⟨hac, v⟩
    · rintro ⟨u, v⟩; exact ⟨convex_le hT0 hT1 u v, v⟩
    · rintro ⟨u, v⟩; exact ⟨convex_ge hT0 hT1 u v, v⟩
    · rintro ⟨u, v⟩; exact absurd u (not_le.2 hxa)
    · exact ⟨le_refl a, hx1⟩
  · -- endpoint 1 clipped to TOP edge
    rw [h'] at h
    injection h with e0 e1 e2 e3
    subst e0; subst e1; subst e2; subst e3
    have hden : (y1 - y0 : ℚ) ≠ 0 := ne_of_gt (by linarith [hp0.2.2.2])
    set T : ℚ := (d - y0) / (y1 - y0) with hTdef
    have hc : T * (y1 - y0) = d - y0 := div_mul_cancel₀ _ hden
    have hy0d : y0 ≤ d := hp0.2.2.2
    have hT0 : 0 ≤ T := by
      apply le_of_not_lt; intro hlt; nlinarith
    have hT1 : T ≤ 1 := by
      apply le_of_not_lt; intro hlt; nlinarith
    rw [show x0 + (x1 - x0) * (d - y0) / (y1 - y0) = x0 + (x1 - x0) * T by
      rw [hTdef, mul_div_assoc]]
    refine nsat_lt_top ?_ ?_ ?_ ?_ ?_
    · rintro ⟨u, v⟩; exact ⟨u, convex_le hT0 hT1 u v⟩
    · rintro ⟨u, v⟩; exact ⟨u, convex_ge hT0 hT1 u v⟩
    · rintro ⟨u, v⟩; exact ⟨u, hbd⟩
    · rintro ⟨u, v⟩; exact absurd v (not_le.2 hdy)
    · exact ⟨hy0d, le_refl d⟩
  · -- endpoint 1 clipped to BOTTOM edge
    rw [h'] at h
    injection h with e0 e1 e2 e3
    subst e0; subst e1; subst e2; subst e3
    have hden : (y1 - y0 : ℚ) ≠ 0 := ne_of_lt (by linarith [hp0.2.2.1])
    set T : ℚ := (b - y0) / (y1 - y0) with hTdef
    have hc : T * (y1 - y0) = b - y0 := div_mul_cancel₀ _ hden
    have hy0b : b ≤ y0 := hp0.2.2.1
    have hT0 : 0 ≤ T := by
      apply le_of_not_lt; intro hlt; nlinarith
    have hT1 : T ≤ 1 := by
      apply le_of_not_lt; intro hlt; nlinarith
    rw [show x0 + (x1 - x0) * (b - y0) / (y1 - y0) = x0 + (x1 - x0) * T by
      rw [hTdef, mul_div_assoc]]
    refine nsat_lt_bottom ?_ ?_ ?_ ?_ ?_
    · rintro ⟨u, v⟩; exact ⟨u, convex_le hT0 hT1 u v⟩
    · rintro ⟨u, v⟩; exact ⟨u, convex_ge hT0 hT1 u v⟩
    · rintro ⟨u, v⟩; exact ⟨u, hbd⟩
    · rintro ⟨u, v⟩; exact absurd v (not_le.2 hyb)
    · exact ⟨hy0b, le_refl b⟩
  · -- endpoint 1 clipped to RIGHT edge
    rw [h'] at h
    injection h with e0 e1 e2 e3
    subst e0; subst e1; subst e2; subst e3
    have hden : (x1 - x0 : ℚ) ≠ 0 := ne_of_gt (by linarith [hp0.2.1])
    set T : ℚ := (c - x0) / (x1 - x0) with hTdef
    have hc : T * (x1 - x0) = c - x0 := div_mul_cancel₀ _ hden
    have hx0c : x0 ≤ c := hp0.2.1
    have hT0 : 0 ≤ T := by
      apply le_of_not_lt; intro hlt; nlinarith
    have hT1 : T ≤ 1 := by
      apply le_of_not_lt; intro hlt; nlinarith
    rw [show y0 + (y1 - y0) * (c - x0) / (x1 - x0) = y0 + (y1 - y0) * T by
      rw [hTdef, mul_div_assoc]]
    refine nsat_lt_right ?_ ?_ ?_ ?_ ?_
    · rintro ⟨u, v⟩; exact ⟨u, hac⟩
    · rintro ⟨u, v⟩; exact ⟨u, convex_le hT0 hT1 u v⟩
    · rintro ⟨u, v⟩; exact ⟨u, convex_ge hT0 hT1 u v⟩
    · rintro ⟨u, v⟩; exact absurd v (not_le.2 hdx)
    · exact ⟨hx0c, le_refl c⟩
  · -- endpoint 1 clipped to LEFT edge
    rw [h'] at h
    injection h with e0 e1 e2 e3
    subst e0; subst e1; subst e2; subst e3
    have hden : (x1 - x0 : ℚ) ≠ 0 := ne_of_lt (by linarith [hp0.1])
    set T : ℚ := (a - x0) / (x1 - x0) with hTdef
    have hc : T * (x1 - x0) = a - x0 := div_mul_cancel₀ _ hden
    have hx0a : a ≤ x0 := hp0.1
    have hT0 : 0 ≤ T := by
      apply le_of_not_lt; intro hlt; nlinarith
    have hT1 : T ≤ 1 := by
      apply le_of_not_lt; intro hlt; nlinarith
    rw [show y0 + (y1 - y0) * (a - x0) / (x1 - x0) = y0 + (y1 - y0) * T by
      rw [hTdef, mul_div_assoc]]
    refine nsat_lt_left ?_ ?_ ?_ ?_ ?_
    · rintro ⟨u, v⟩; exact ⟨u, hac⟩
    · rintro ⟨u, v⟩; exact ⟨u, convex_le hT0 hT1 u v⟩
    · rintro ⟨u, v⟩; exact ⟨u, convex_ge hT0 hT1 u v⟩
    · rintro ⟨u, v⟩; exact absurd v (not_le.2 hxa)
    · exact ⟨hx0a, le_refl a⟩

/-- The loop terminates after at most `4` intersection-computing passes
once enough edges are already satisfied: with `nsat + fuel ≥ 4` the fuel
cannot run out, since each pass strictly increases `nsat` and `nsat = 4`
forces the trivial-accept exit. -/
lemma csRun_nsat_ne_fuelOut {a b c d : ℚ} (hac : a ≤ c) (hbd : b ≤ d) :
    ∀ (fuel : ℕ) (x0 y0 x1 y1 : ℚ),
      4 ≤ nsat a b c d x0 y0 x1 y1 + fuel →
      csRun a b c d fuel x0 y0 x1 y1 ≠ .fuelOut := by
  intro fuel
  induction fuel with
  | zero =>
    intro x0 y0 x1 y1 h4
    cases hstep : csStep x0 y0 x1 y1 a b c d with
    | done r =>
      rw [csRun_done 0 hstep]
      rintro rfl
      exact csStep_ne_fuelOut x0 y0 x1 y1 a b c d hstep
    | cont n0 n1 n2 n3 =>
      have hlt := csStep_cont_nsat hac hbd hstep
      have hle := nsat_le_four a b c d n0 n1 n2 n3
      omega
  | succ fuel ih =>
    intro x0 y0 x1 y1 h4
    cases hstep : csStep x0 y0 x1 y1 a b c d with
    | done r =>
      rw [csRun_done (fuel + 1) hstep]
      rintro rfl
      exact csStep_ne_fuelOut x0 y0 x1 y1 a b c d hstep
    | cont n0 n1 n2 n3 =>
      rw [csRun_cont fuel hstep]
      have hlt := csStep_cont_nsat hac hbd hstep
      exact ih n0 n1 n2 n3 (by omega)

/-! ### Liang-Barsky: loop analysis -/

lemma lbStep_out (pq : ℚ × ℚ) : lbStep .out pq = .out := rfl

lemma lbStep_dz (pq : ℚ × ℚ) : lbStep .dz pq = .dz := rfl

lemma lbFold_out (l : List (ℚ × ℚ)) : lbFold .out l = .out := by
  induction l with
  | nil => rfl
  | cons pq l ih => simpa [lbFold, lbStep_out] using ih

lemma lbFold_dz (l : List (ℚ × ℚ)) : lbFold .dz l = .dz := by
  induction l with
  | nil => rfl
  | cons pq l ih => simpa [lbFold, lbStep_dz] using ih

lemma lbFold_cons (s : LBState) (pq : ℚ × ℚ) (l : List (ℚ × ℚ)) :
    lbFold s (pq :: l) = lbFold (lbStep s pq) l := rfl

/-- Case inversion of one boundary iteration from a live state. -/
lemma lbStep_ok_inv (u1 u2 p q : ℚ) :
    (p = 0 ∧ q < 0 ∧ lbStep (.ok u1 u2) (p, q) = .out) ∨
    (p = 0 ∧ 0 ≤ q ∧ lbStep (.ok u1 u2) (p, q) = .ok u1 u2) ∨
    (p < 0 ∧ lbStep (.ok u1 u2) (p, q) = .ok (max u1 (q / p)) u2) ∨
    (0 < p ∧ lbStep (.ok u1 u2) (p, q) = .ok u1 (min u2 (q / p))) := by
  by_cases hp : p = 0
  · by_cases hq : q < 0
    · exact Or.inl ⟨hp, hq, by simp [lbStep, hp, hq]⟩
    · exact Or.inr (Or.inl ⟨hp, not_lt.1 hq, by simp [lbStep, hp, hq]⟩)
  · rcases lt_or_gt_of_ne hp with h | h
    · exact Or.inr (Or.inr (Or.inl ⟨h, by simp [lbStep, qdiv, hp, h]⟩))
    · exact Or.inr (Or.inr (Or.inr ⟨h, by
        simp [lbStep, qdiv, hp, not_lt.2 (le_of_lt h)]⟩))

/-- The boundary loop never raises `ZeroDivisionError`: the `p = 0` test
precedes every division. -/
lemma lbFold_ne_dz (l : List (ℚ × ℚ)) : ∀ u1 u2 : ℚ,
    lbFold (.ok u1 u2) l ≠ .dz := by
  induction l with
  | nil => intro u1 u2 h; exact absurd h (by simp [lbFold])
  | cons pq l ih =>
    intro u1 u2 h
    obtain ⟨p, q⟩ := pq
    rw [lbFold_cons] at h
    rcases lbStep_ok_inv u1 u2 p q with ⟨-, -, hs⟩ | ⟨-, -, hs⟩ | ⟨-, hs⟩ | ⟨-, hs⟩ <;>
      rw [hs] at h
    · rw [lbFold_out] at h; exact absurd h (by simp)
    · exact ih u1 u2 h
    · exact ih _ _ h
    · exact ih _ _ h

/-- If the boundary loop returns a live `(v1, v2)`, then `[v1, v2] ⊆ [u1, u2]`,
every parameter in `[u1, u2]` satisfying all processed constraints lies in
`[v1, v2]`, and every parameter in `[v1, v2]` satisfies all processed
constraints. -/
lemma lbFold_ok_spec (l : List (ℚ × ℚ)) : ∀ u1 u2 v1 v2 : ℚ,
    lbFold (.ok u1 u2) l = .ok v1 v2 →
      u1 ≤ v1 ∧ v2 ≤ u2 ∧
      (∀ t : ℚ, u1 ≤ t → t ≤ u2 → (∀ pq ∈ l, consSat t pq) →
        v1 ≤ t ∧ t ≤ v2) ∧
      (∀ t : ℚ, v1 ≤ t → t ≤ v2 → ∀ pq ∈ l, consSat t pq) := by
  induction l with
  | nil =>
    intro u1 u2 v1 v2 h
    have h' : LBState.ok u1 u2 = .ok v1 v2 := h
    injection h' with e1 e2
    subst e1; subst e2
    exact ⟨le_refl _, le_refl _, fun t h1 h2 _ => ⟨h1, h2⟩, by simp⟩
  | cons pq l ih =>
    intro u1 u2 v1 v2 h
    obtain ⟨p, q⟩ := pq
    rw [lbFold_cons] at h
    rcases lbStep_ok_inv u1 u2 p q with ⟨hp, hq, hs⟩ | ⟨hp, hq, hs⟩ |
      ⟨hp, hs⟩ | ⟨hp, hs⟩ <;> rw [hs] at h
    · rw [lbFold_out] at h; exact absurd h (by simp)
    · obtain ⟨ih1, ih2, ih3, ih4⟩ := ih u1 u2 v1 v2 h
      refine ⟨ih1, ih2, fun t h1 h2 hall => ?_, fun t h1 h2 => ?_⟩
      · exact ih3 t h1 h2 fun pq hm => hall pq (List.mem_cons_of_mem _ hm)
      · intro pq hm
        rcases List.mem_cons.1 hm with rfl | hm'
        · show p * t ≤ q
          rw [hp, zero_mul]; exact hq
        · exact ih4 t h1 h2 pq hm'
    · obtain ⟨ih1, ih2, ih3, ih4⟩ := ih (max u1 (q / p)) u2 v1 v2 h
      refine ⟨le_trans (le_max_left _ _) ih1, ih2,
        fun t h1 h2 hall => ?_, fun t h1 h2 => ?_⟩
      · have hcq : p * t ≤ q := hall (p, q) (List.mem_cons_self _ _)
        have hdt : q / p ≤ t := by
          rw [div_le_iff_of_neg hp]
          linarith [hcq]
        exact ih3 t (max_le h1 hdt) h2
          fun pq hm => hall pq (List.mem_cons_of_mem _ hm)
      · intro pq hm
        rcases List.mem_cons.1 hm with rfl | hm'
        · show p * t ≤ q
          have : q / p ≤ t := le_trans (le_max_right _ _) (le_trans ih1 h1)
          rw [div_le_iff_of_neg hp] at this
          linarith
        · exact ih4 t h1 h2 pq hm'
    · obtain ⟨ih1, ih2, ih3, ih4⟩ := ih u1 (min u2 (q / p)) v1 v2 h
      refine ⟨ih1, le_trans ih2 (min_le_left _ _),
        fun t h1 h2 hall => ?_, fun t h1 h2 => ?_⟩
      · have hcq : p * t ≤ q := hall (p, q) (List.mem_cons_self _ _)
        have hdt : t ≤ q / p := by
          rw [le_div_iff₀ hp]
          linarith [hcq]
        exact ih3 t h1 (le_min h2 hdt)
          fun pq hm => hall pq (List.mem_cons_of_mem _ hm)
      · intro pq hm
        rcases List.mem_cons.1 hm with rfl | hm'
        · show p * t ≤ q
          have : t ≤ q / p := le_trans h2 (le_trans ih2 (min_le_right _ _))
          rw [le_div_iff₀ hp] at this
          linarith
        · exact ih4 t h1 h2 pq hm'

/-- If the boundary loop returns the early-out, some processed constraint
is unsatisfiable (a `p = 0, q < 0` pair), so no parameter satisfies all
processed constraints. -/
lemma lbFold_out_spec (l : List (ℚ × ℚ)) : ∀ u1 u2 : ℚ,
    lbFold (.ok u1 u2) l = .out →
      ∀ t : ℚ, ¬ ∀ pq ∈ l, consSat t pq := by
  induction l with
  | nil => intro u1 u2 h; exact absurd h (by simp [lbFold])
  | cons pq l ih =>
    intro u1 u2 h t hall
    obtain ⟨p, q⟩ := pq
    rw [lbFold_cons] at h
    rcases lbStep_ok_inv u1 u2 p q with ⟨hp, hq, hs⟩ | ⟨hp, hq, hs⟩ |
      ⟨hp, hs⟩ | ⟨hp, hs⟩ <;> rw [hs] at h
    · have hcq : p * t ≤ q := hall (p, q) (List.mem_cons_self _ _)
      rw [hp, zero_mul] at hcq
      linarith
    · exact ih u1 u2 h t fun pq hm => hall pq (List.mem_cons_of_mem _ hm)
    · exact ih _ _ h t fun pq hm => hall pq (List.mem_cons_of_mem _ hm)
    · exact ih _ _ h t fun pq hm => hall pq (List.mem_cons_of_mem _ hm)

/-- `liang_barsky` with the `zip` of the two boundary lists computed. -/
lemma liang_barsky_eq_match (x1 y1 x2 y2 a b c d : ℚ) :
    liang_barsky x1 y1 x2 y2 a b c d =
      match lbFold (.ok 0 1)
          [(-(x2 - x1), x1 - a), (x2 - x1, c - x1),
           (-(y2 - y1), y1 - b), (y2 - y1, d - y1)] with
      | .out => .reject
      | .dz => .divZero
      | .ok u1 u2 =>
        if u1 > u2 then .reject
        else .accept (x1 + u1 * (x2 - x1)) (y1 + u1 * (y2 - y1))
            (x1 + u2 * (x2 - x1)) (y1 + u2 * (y2 - y1)) := rfl

/-- The four boundary constraints of `liang_barsky` say exactly that the
parameterised point lies in the window. -/
lemma lb_cons_iff (x1 y1 x2 y2 a b c d t : ℚ) :
    (∀ pq ∈ [((-(x2 - x1) : ℚ), x1 - a), (x2 - x1, c - x1),
        (-(y2 - y1), y1 - b), (y2 - y1, d - y1)], consSat t pq) ↔
      inWin a b c d (x1 + t * (x2 - x1)) (y1 + t * (y2 - y1)) := by
  simp only [List.mem_cons, List.not_mem_nil, or_false, forall_eq_or_imp,
    forall_eq, consSat, inWin]
  constructor
  · rintro ⟨h1, h2, h3, h4⟩
    refine ⟨by linarith, by linarith, by linarith, by linarith⟩
  · rintro ⟨h1, h2, h3, h4⟩
    refine ⟨by linarith, by linarith, by linarith, by linarith⟩

/-- Full characterisation of `liang_barsky`: it either rejects, and then no
point of the parameter interval `[0, 1]` lies in the window, or accepts and
returns the points at the extreme parameters `u ≤ v` of the subinterval of
`[0, 1]` mapped into the window. -/
lemma liang_barsky_cases (x1 y1 x2 y2 a b c d : ℚ) :
    (liang_barsky x1 y1 x2 y2 a b c d = .reject ∧
       ∀ t : ℚ, 0 ≤ t → t ≤ 1 →
         ¬ inWin a b c d (x1 + t * (x2 - x1)) (y1 + t * (y2 - y1))) ∨
    (∃ u v : ℚ, liang_barsky x1 y1 x2 y2 a b c d =
         .accept (x1 + u * (x2 - x1)) (y1 + u * (y2 - y1))
           (x1 + v * (x2 - x1)) (y1 + v * (y2 - y1)) ∧
       0 ≤ u ∧ u ≤ v ∧ v ≤ 1 ∧
       inWin a b c d (x1 + u * (x2 - x1)) (y1 + u * (y2 - y1)) ∧
       inWin a b c d (x1 + v * (x2 - x1)) (y1 + v * (y2 - y1)) ∧
       ∀ t : ℚ, 0 ≤ t → t ≤ 1 →
         inWin a b c d (x1 + t * (x2 - x1)) (y1 + t * (y2 - y1)) →
         u ≤ t ∧ t ≤ v) := by
  rw [liang_barsky_eq_match]
  cases hfold : lbFold (.ok 0 1)
      [(-(x2 - x1), x1 - a), (x2 - x1, c - x1),
       (-(y2 - y1), y1 - b), (y2 - y1, d - y1)] with
  | ok v1 v2 =>
    obtain ⟨h1, h2, h3, h4⟩ := lbFold_ok_spec _ 0 1 v1 v2 hfold
    by_cases hv : v1 > v2
    · refine Or.inl ⟨by simp [hv], fun t ht0 ht1 hin => ?_⟩
      have := h3 t ht0 ht1 ((lb_cons_iff x1 y1 x2 y2 a b c d t).2 hin)
      linarith [this.1, this.2]
    · refine Or.inr ⟨v1, v2, by simp [hv], h1, not_lt.1 hv, h2, ?_, ?_, ?_⟩
      · exact (lb_cons_iff x1 y1 x2 y2 a b c d v1).1
          (h4 v1 (le_refl v1) (not_lt.1 hv))
      · exact (lb_cons_iff x1 y1 x2 y2 a b c d v2).1
          (h4 v2 (not_lt.1 hv) (le_refl v2))
      · exact fun t ht0 ht1 hin =>
          h3 t ht0 ht1 ((lb_cons_iff x1 y1 x2 y2 a b c d t).2 hin)
  | out =>
    refine Or.inl ⟨rfl, fun t ht0 ht1 hin => ?_⟩
    exact lbFold_out_spec _ 0 1 hfold t
      ((lb_cons_iff x1 y1 x2 y2 a b c d t).2 hin)
  | dz => exact absurd hfold (lbFold_ne_dz _ 0 1)

/-! ### Affine one-variable lemmas used for the parametric analysis -/

/-- A value of an affine map strictly above `w` at both `s0` and `s1` is
strictly above `w` on all of `[s0, s1]`. -/
lemma affine_big (G0 gm w s0 s1 t : ℚ) (h0 : w < G0 + s0 * gm)
    (h1 : w < G0 + s1 * gm) (hts : s0 ≤ t) (ht1 : t ≤ s1) :
    w < G0 + t * gm := by
  have key : (G0 + t * gm - w) * (s1 - s0) =
      (G0 + s0 * gm - w) * (s1 - t) + (G0 + s1 * gm - w) * (t - s0) := by
    ring
  rcases eq_or_lt_of_le ht1 with rfl | hts1
  · exact h1
  rcases eq_or_lt_of_le hts with rfl | hst
  · exact h0
  have hp1 : 0 < (G0 + s0 * gm - w) * (s1 - t) :=
    mul_pos (by linarith) (by linarith)
  have hp2 : 0 < (G0 + s1 * gm - w) * (t - s0) :=
    mul_pos (by linarith) (by linarith)
  nlinarith [key, hp1, hp2]

/-- A value of an affine map strictly below `w` at both `s0` and `s1` is
strictly below `w` on all of `[s0, s1]`. -/
lemma affine_small (G0 gm w s0 s1 t : ℚ) (h0 : G0 + s0 * gm < w)
    (h1 : G0 + s1 * gm < w) (hts : s0 ≤ t) (ht1 : t ≤ s1) :
    G0 + t * gm < w := by
  have := affine_big (-G0) (-gm) (-w) s0 s1 t (by linarith) (by linarith) hts ht1
  linarith

/-- Crossing lemma, endpoint `s0` strictly above the threshold and `s1` at
or below it: the parameter `s = s0 + t (s1 - s0)` of the computed
intersection satisfies `s0 < s ≤ s1`, lands exactly on the threshold, and
every parameter below `s` is still strictly above the threshold. -/
lemma crossCase1 (G0 gm w s0 s1 t s : ℚ) (h01 : s0 ≤ s1)
    (hA : w < G0 + s0 * gm) (hB : G0 + s1 * gm ≤ w)
    (ht : t = (w - (G0 + s0 * gm)) / (G0 + s1 * gm - (G0 + s0 * gm)))
    (hs : s = s0 + t * (s1 - s0)) :
    s0 < s ∧ s ≤ s1 ∧ G0 + s * gm = w ∧ ∀ u : ℚ, u < s → w < G0 + u * gm := by
  have hBA : G0 + s1 * gm - (G0 + s0 * gm) < 0 := by linarith
  have hcan : t * (G0 + s1 * gm - (G0 + s0 * gm)) = w - (G0 + s0 * gm) := by
    rw [ht]; exact div_mul_cancel₀ _ (ne_of_lt hBA)
  have hs01 : s0 < s1 := by
    rcases eq_or_lt_of_le h01 with rfl | h
    · linarith
    · exact h
  have hgm : gm < 0 := by nlinarith [hBA]
  have ht0 : 0 < t := by nlinarith [hcan]
  have ht1 : t ≤ 1 := by nlinarith [hcan]
  have hgs : G0 + s * gm = w := by
    rw [hs]; linear_combination hcan
  have hlo : s0 < s := by
    nlinarith [mul_pos ht0 (show (0:ℚ) < s1 - s0 by linarith)]
  have hhi : s ≤ s1 := by
    nlinarith [mul_nonneg (show (0:ℚ) ≤ 1 - t by linarith) (show (0:ℚ) ≤ s1 - s0 by linarith)]
  refine ⟨hlo, hhi, hgs, fun u hu => ?_⟩
  have hd : G0 + u * gm - w = gm * (u - s) := by linear_combination hgs
  nlinarith [mul_pos_of_neg_of_neg hgm (show u - s < 0 by linarith)]

/-- Crossing lemma, endpoint `s1` strictly above the threshold and `s0` at
or below it: the intersection parameter satisfies `s0 ≤ s < s1`, lands on
the threshold, and every parameter above `s` is strictly above it. -/
lemma crossCase2 (G0 gm w s0 s1 t s : ℚ) (h01 : s0 ≤ s1)
    (hA : G0 + s0 * gm ≤ w) (hB : w < G0 + s1 * gm)
    (ht : t = (w - (G0 + s0 * gm)) / (G0 + s1 * gm - (G0 + s0 * gm)))
    (hs : s = s0 + t * (s1 - s0)) :
    s0 ≤ s ∧ s < s1 ∧ G0 + s * gm = w ∧ ∀ u : ℚ, s < u → w < G0 + u * gm := by
  have hBA : 0 < G0 + s1 * gm - (G0 + s0 * gm) := by linarith
  have hcan : t * (G0 + s1 * gm - (G0 + s0 * gm)) = w - (G0 + s0 * gm) := by
    rw [ht]; exact div_mul_cancel₀ _ (ne_of_gt hBA)
  have hs01 : s0 < s1 := by
    rcases eq_or_lt_of_le h01 with rfl | h
    · linarith
    · exact h
  have hgm : 0 < gm := by nlinarith [hBA]
  have ht0 : 0 ≤ t := by nlinarith [hcan]
  have ht1 : t < 1 := by nlinarith [hcan]
  have hgs : G0 + s * gm = w := by
    rw [hs]; linear_combination hcan
  have hlo : s0 ≤ s := by
    nlinarith [mul_nonneg ht0 (show (0:ℚ) ≤ s1 - s0 by linarith)]
  have hhi : s < s1 := by
    nlinarith [mul_pos (show (0:ℚ) < 1 - t by linarith) (show (0:ℚ) < s1 - s0 by linarith)]
  refine ⟨hlo, hhi, hgs, fun u hu => ?_⟩
  have hd : G0 + u * gm - w = gm * (u - s) := by linear_combination hgs
  nlinarith [mul_pos hgm (show (0:ℚ) < u - s by linarith)]

/-- Crossing lemma, endpoint `s0` strictly below the threshold and `s1` at
or above it. -/
lemma crossCase3 (G0 gm w s0 s1 t s : ℚ) (h01 : s0 ≤ s1)
    (hA : G0 + s0 * gm < w) (hB : w ≤ G0 + s1 * gm)
    (ht : t = (w - (G0 + s0 * gm)) / (G0 + s1 * gm - (G0 + s0 * gm)))
    (hs : s = s0 + t * (s1 - s0)) :
    s0 < s ∧ s ≤ s1 ∧ G0 + s * gm = w ∧ ∀ u : ℚ, u < s → G0 + u * gm < w := by
  have hBA : 0 < G0 + s1 * gm - (G0 + s0 * gm) := by linarith
  have hcan : t * (G0 + s1 * gm - (G0 + s0 * gm)) = w - (G0 + s0 * gm) := by
    rw [ht]; exact div_mul_cancel₀ _ (ne_of_gt hBA)
  have hs01 : s0 < s1 := by
    rcases eq_or_lt_of_le h01 with rfl | h
    · linarith
    · exact h
  have hgm : 0 < gm := by nlinarith [hBA]
  have ht0 : 0 < t := by nlinarith [hcan]
  have ht1 : t ≤ 1 := by nlinarith [hcan]
  have hgs : G0 + s * gm = w := by
    rw [hs]; linear_combination hcan
  have hlo : s0 < s := by
    nlinarith [mul_pos ht0 (show (0:ℚ) < s1 - s0 by linarith)]
  have hhi : s ≤ s1 := by
    nlinarith [mul_nonneg (show (0:ℚ) ≤ 1 - t by linarith) (show (0:ℚ) ≤ s1 - s0 by linarith)]
  refine ⟨hlo, hhi, hgs, fun u hu => ?_⟩
  have hd : G0 + u * gm - w = gm * (u - s) := by linear_combination hgs
  nlinarith [mul_neg_of_pos_of_neg hgm (show u - s < 0 by linarith)]

/-- Crossing lemma, endpoint `s1` strictly below the threshold and `s0` at
or above it. -/
lemma crossCase4 (G0 gm w s0 s1 t s : ℚ) (h01 : s0 ≤ s1)
    (hA : w ≤ G0 + s0 * gm) (hB : G0 + s1 * gm < w)
    (ht : t = (w - (G0 + s0 * gm)) / (G0 + s1 * gm - (G0 + s0 * gm)))
    (hs : s = s0 + t * (s1 - s0)) :
    s0 ≤ s ∧ s < s1 ∧ G0 + s * gm = w ∧ ∀ u : ℚ, s < u → G0 + u * gm < w := by
  have hBA : G0 + s1 * gm - (G0 + s0 * gm) < 0 := by linarith
  have hcan : t * (G0 + s1 * gm - (G0 + s0 * gm)) = w - (G0 + s0 * gm) := by
    rw [ht]; exact div_mul_cancel₀ _ (ne_of_lt hBA)
  have hs01 : s0 < s1 := by
    rcases eq_or_lt_of_le h01 with rfl | h
    · linarith
    · exact h
  have hgm : gm < 0 := by nlinarith [hBA]
  have ht0 : 0 ≤ t := by nlinarith [hcan]
  have ht1 : t < 1 := by nlinarith [hcan]
  have hgs : G0 + s * gm = w := by
    rw [hs]; linear_combination hcan
  have hlo : s0 ≤ s := by
    nlinarith [mul_nonneg ht0 (show (0:ℚ) ≤ s1 - s0 by linarith)]
  have hhi : s < s1 := by
    nlinarith [mul_pos (show (0:ℚ) < 1 - t by linarith) (show (0:ℚ) < s1 - s0 by linarith)]
  refine ⟨hlo, hhi, hgs, fun u hu => ?_⟩
  have hd : G0 + u * gm - w = gm * (u - s) := by linear_combination hgs
  nlinarith [mul_neg_of_neg_of_pos hgm (show (0:ℚ) < u - s by linarith)]

/-- Two outcodes with nonzero bitwise AND share one of the four bits. -/
lemma land_ne_zero_cases (m n : ℕ)
    (hm : m ∈ ([0, 1, 2, 4, 5, 6, 8, 9, 10] : List ℕ))
    (hn : n ∈ ([0, 1, 2, 4, 5, 6, 8, 9, 10] : List ℕ)) (h : m &&& n ≠ 0) :
    (m &&& 1 ≠ 0 ∧ n &&& 1 ≠ 0) ∨ (m &&& 2 ≠ 0 ∧ n &&& 2 ≠ 0) ∨
      (m &&& 4 ≠ 0 ∧ n &&& 4 ≠ 0) ∨ (m &&& 8 ≠ 0 ∧ n &&& 8 ≠ 0) := by
  fin_cases hm <;> fin_cases hn <;> revert h <;> decide

/-! ### Cohen-Sutherland: parametric analysis -/

/-- Behaviour of a terminal loop pass on a parameterised state: a trivial
accept returns the current endpoints, which lie in the window and bracket
every in-window parameter of `[0, 1]`; a trivial reject implies no
parameter of `[0, 1]` maps into the window. -/
lemma csStep_done_param (a b c d X0 Y0 X1 Y1 s0 s1 : ℚ)
    (h0 : 0 ≤ s0) (h01 : s0 ≤ s1) (h1 : s1 ≤ 1)
    (hinv : ∀ t : ℚ, 0 ≤ t → t ≤ 1 →
      inWin a b c d (X0 + t * (X1 - X0)) (Y0 + t * (Y1 - Y0)) →
      s0 ≤ t ∧ t ≤ s1)
    (r : ClipOut)
    (hstep : csStep (X0 + s0 * (X1 - X0)) (Y0 + s0 * (Y1 - Y0))
        (X0 + s1 * (X1 - X0)) (Y0 + s1 * (Y1 - Y0)) a b c d = .done r) :
    (∀ r0 r1 r2 r3 : ℚ, r = .accept r0 r1 r2 r3 →
      ∃ u v : ℚ, 0 ≤ u ∧ u ≤ v ∧ v ≤ 1 ∧
        r0 = X0 + u * (X1 - X0) ∧ r1 = Y0 + u * (Y1 - Y0) ∧
        r2 = X0 + v * (X1 - X0) ∧ r3 = Y0 + v * (Y1 - Y0) ∧
        inWin a b c d r0 r1 ∧ inWin a b c d r2 r3 ∧
        (∀ t : ℚ, 0 ≤ t → t ≤ 1 →
          inWin a b c d (X0 + t * (X1 - X0)) (Y0 + t * (Y1 - Y0)) →
          u ≤ t ∧ t ≤ v)) ∧
    (r = .reject → ∀ t : ℚ, 0 ≤ t → t ≤ 1 →
      ¬ inWin a b c d (X0 + t * (X1 - X0)) (Y0 + t * (Y1 - Y0))) := by
  rcases csStep_inv (X0 + s0 * (X1 - X0)) (Y0 + s0 * (Y1 - Y0))
      (X0 + s1 * (X1 - X0)) (Y0 + s1 * (Y1 - Y0)) a b c d with
    ⟨h', hc0, hc1⟩ | ⟨h', hand, -⟩ | ⟨h', -⟩ | ⟨h', -⟩ | ⟨h', -⟩ | ⟨h', -⟩ |
    ⟨h', -⟩ | ⟨h', -⟩ | ⟨h', -⟩ | ⟨h', -⟩
  · -- trivial accept
    have hr : r = .accept (X0 + s0 * (X1 - X0)) (Y0 + s0 * (Y1 - Y0))
        (X0 + s1 * (X1 - X0)) (Y0 + s1 * (Y1 - Y0)) := by
      injection hstep.symm.trans h'
    have hw0 : inWin a b c d (X0 + s0 * (X1 - X0)) (Y0 + s0 * (Y1 - Y0)) := by
      have h := (code_eq_zero _ _ a b c d).1 hc0
      exact ⟨not_lt.1 h.1, not_lt.1 h.2.1, not_lt.1 h.2.2.1, not_lt.1 h.2.2.2⟩
    have hw1 : inWin a b c d (X0 + s1 * (X1 - X0)) (Y0 + s1 * (Y1 - Y0)) := by
      have h := (code_eq_zero _ _ a b c d).1 hc1
      exact ⟨not_lt.1 h.1, not_lt.1 h.2.1, not_lt.1 h.2.2.1, not_lt.1 h.2.2.2⟩
    constructor
    · intro r0 r1 r2 r3 hacc
      rw [hr] at hacc
      injection hacc with e0 e1 e2 e3
      exact ⟨s0, s1, h0, h01, h1, e0.symm, e1.symm, e2.symm, e3.symm,
        e0 ▸ e1 ▸ hw0, e2 ▸ e3 ▸ hw1, hinv⟩
    · intro hrej
      rw [hr] at hrej
      exact absurd hrej (by simp)
  · -- trivial reject
    have hr : r = .reject := by injection hstep.symm.trans h'
    constructor
    · intro r0 r1 r2 r3 hacc
      rw [hr] at hacc
      exact absurd hacc (by simp)
    · intro _ t ht0 ht1 hin
      have hts := hinv t ht0 ht1 hin
      rcases land_ne_zero_cases _ _
          (compute_code_mem (X0 + s0 * (X1 - X0)) (Y0 + s0 * (Y1 - Y0)) a b c d)
          (compute_code_mem (X0 + s1 * (X1 - X0)) (Y0 + s1 * (Y1 - Y0)) a b c d)
          hand with ⟨hb0, hb1⟩ | ⟨hb0, hb1⟩ | ⟨hb0, hb1⟩ | ⟨hb0, hb1⟩
      · have g0 := (code_left _ _ a b c d).1 hb0
        have g1 := (code_left _ _ a b c d).1 hb1
        exact absurd hin.1
          (not_le.2 (affine_small X0 (X1 - X0) a s0 s1 t g0 g1 hts.1 hts.2))
      · have g0 := ((code_right _ _ a b c d).1 hb0).2
        have g1 := ((code_right _ _ a b c d).1 hb1).2
        exact absurd hin.2.1
          (not_le.2 (affine_big X0 (X1 - X0) c s0 s1 t g0 g1 hts.1 hts.2))
      · have g0 := (code_bottom _ _ a b c d).1 hb0
        have g1 := (code_bottom _ _ a b c d).1 hb1
        exact absurd hin.2.2.1
          (not_le.2 (affine_small Y0 (Y1 - Y0) b s0 s1 t g0 g1 hts.1 hts.2))
      · have g0 := ((code_top _ _ a b c d).1 hb0).2
        have g1 := ((code_top _ _ a b c d).1 hb1).2
        exact absurd hin.2.2.2
          (not_le.2 (affine_big Y0 (Y1 - Y0) d s0 s1 t g0 g1 hts.1 hts.2))
  all_goals exact absurd (hstep.symm.trans h') (by simp)

/-- Partial correctness of the Cohen-Sutherland loop on a parameterised
state, by induction on the fuel: if the loop accepts, it returns the
points at extreme parameters `u ≤ v` of the in-window subinterval of
`[0, 1]`; if it rejects, no parameter of `[0, 1]` maps into the window. -/
lemma csRun_param (a b c d X0 Y0 X1 Y1 : ℚ) (hac : a ≤ c) (hbd : b ≤ d) :
    ∀ (fuel : ℕ) (s0 s1 : ℚ), 0 ≤ s0 → s0 ≤ s1 → s1 ≤ 1 →
      (∀ t : ℚ, 0 ≤ t → t ≤ 1 →
        inWin a b c d (X0 + t * (X1 - X0)) (Y0 + t * (Y1 - Y0)) →
        s0 ≤ t ∧ t ≤ s1) →
      (∀ r0 r1 r2 r3 : ℚ,
        csRun a b c d fuel (X0 + s0 * (X1 - X0)) (Y0 + s0 * (Y1 - Y0))
            (X0 + s1 * (X1 - X0)) (Y0 + s1 * (Y1 - Y0)) = .accept r0 r1 r2 r3 →
        ∃ u v : ℚ, 0 ≤ u ∧ u ≤ v ∧ v ≤ 1 ∧
          r0 = X0 + u * (X1 - X0) ∧ r1 = Y0 + u * (Y1 - Y0) ∧
          r2 = X0 + v * (X1 - X0) ∧ r3 = Y0 + v * (Y1 - Y0) ∧
          inWin a b c d r0 r1 ∧ inWin a b c d r2 r3 ∧
          (∀ t : ℚ, 0 ≤ t → t ≤ 1 →
            inWin a b c d (X0 + t * (X1 - X0)) (Y0 + t * (Y1 - Y0)) →
            u ≤ t ∧ t ≤ v)) ∧
      (csRun a b c d fuel (X0 + s0 * (X1 - X0)) (Y0 + s0 * (Y1 - Y0))
          (X0 + s1 * (X1 - X0)) (Y0 + s1 * (Y1 - Y0)) = .reject →
        ∀ t : ℚ, 0 ≤ t → t ≤ 1 →
          ¬ inWin a b c d (X0 + t * (X1 - X0)) (Y0 + t * (Y1 - Y0))) := by
  intro fuel
  induction fuel with
  | zero =>
    intro s0 s1 h0 h01 h1 hinv
    cases hstep : csStep (X0 + s0 * (X1 - X0)) (Y0 + s0 * (Y1 - Y0))
        (X0 + s1 * (X1 - X0)) (Y0 + s1 * (Y1 - Y0)) a b c d with
    | done r =>
      rw [csRun_done 0 hstep]
      exact csStep_done_param a b c d X0 Y0 X1 Y1 s0 s1 h0 h01 h1 hinv r hstep
    | cont n0 n1 n2 n3 =>
      rw [csRun_cont_zero hstep]
      exact ⟨fun r0 r1 r2 r3 hacc => absurd hacc (by simp),
        fun hrej => absurd hrej (by simp)⟩
  | succ fuel ih =>
    intro s0 s1 h0 h01 h1 hinv
    cases hstep : csStep (X0 + s0 * (X1 - X0)) (Y0 + s0 * (Y1 - Y0))
        (X0 + s1 * (X1 - X0)) (Y0 + s1 * (Y1 - Y0)) a b c d with
    | done r =>
      rw [csRun_done (fuel + 1) hstep]
      exact csStep_done_param a b c d X0 Y0 X1 Y1 s0 s1 h0 h01 h1 hinv r hstep
    | cont n0 n1 n2 n3 =>
      rw [csRun_cont fuel hstep]
      rcases csStep_inv (X0 + s0 * (X1 - X0)) (Y0 + s0 * (Y1 - Y0))
          (X0 + s1 * (X1 - X0)) (Y0 + s1 * (Y1 - Y0)) a b c d with
        ⟨h', -⟩ | ⟨h', -⟩ | ⟨h', hyb, hdy, hy1⟩ | ⟨h', hyb, hy1⟩ |
        ⟨h', hxa, hdx, hx1⟩ | ⟨h', hxa, hx1⟩ | ⟨h', hp0, hyb, hdy⟩ |
        ⟨h', hp0, hyb⟩ | ⟨h', hp0, hxa, hdx⟩ | ⟨h', hp0, hxa⟩
      · exact absurd (hstep.symm.trans h') (by simp)
      · exact absurd (hstep.symm.trans h') (by simp)
      · -- endpoint 0 clipped to TOP edge
        have hEq := hstep.symm.trans h'
        injection hEq with e0 e1 e2 e3
        rw [e0, e1, e2, e3]
        have hB : Y0 + s1 * (Y1 - Y0) ≤ d := by
          rcases hy1 with h | h <;> linarith
        set T : ℚ := (d - (Y0 + s0 * (Y1 - Y0))) /
            (Y0 + s1 * (Y1 - Y0) - (Y0 + s0 * (Y1 - Y0))) with hT
        set s' : ℚ := s0 + T * (s1 - s0) with hs'
        obtain ⟨ha1, ha2, ha3, ha4⟩ :=
          crossCase1 Y0 (Y1 - Y0) d s0 s1 T s' h01 hdy hB hT hs'
        have hx : X0 + s0 * (X1 - X0) +
            (X0 + s1 * (X1 - X0) - (X0 + s0 * (X1 - X0))) *
              (d - (Y0 + s0 * (Y1 - Y0))) /
              (Y0 + s1 * (Y1 - Y0) - (Y0 + s0 * (Y1 - Y0))) =
            X0 + s' * (X1 - X0) := by
          rw [mul_div_assoc, ← hT, hs']; ring
        have hinv' : ∀ t : ℚ, 0 ≤ t → t ≤ 1 →
            inWin a b c d (X0 + t * (X1 - X0)) (Y0 + t * (Y1 - Y0)) →
            s' ≤ t ∧ t ≤ s1 := by
          intro t ht0 ht1 hin
          refine ⟨?_, (hinv t ht0 ht1 hin).2⟩
          by_contra hlt
          push_neg at hlt
          exact absurd hin.2.2.2 (not_le.2 (ha4 t hlt))
        obtain ⟨IH1, IH2⟩ := ih s' s1 (h0.trans (le_of_lt ha1)) ha2 h1 hinv'
        rw [← hx, ha3] at IH1 IH2
        exact ⟨IH1, IH2⟩
      · -- endpoint 0 clipped to BOTTOM edge
        have hEq := hstep.symm.trans h'
        injection hEq with e0 e1 e2 e3
        rw [e0, e1, e2, e3]
        set T : ℚ := (b - (Y0 + s0 * (Y1 - Y0))) /
            (Y0 + s1 * (Y1 - Y0) - (Y0 + s0 * (Y1 - Y0))) with hT
        set s' : ℚ := s0 + T * (s1 - s0) with hs'
        obtain ⟨ha1, ha2, ha3, ha4⟩ :=
          crossCase3 Y0 (Y1 - Y0) b s0 s1 T s' h01 hyb hy1 hT hs'
        have hx : X0 + s0 * (X1 - X0) +
            (X0 + s1 * (X1 - X0) - (X0 + s0 * (X1 - X0))) *
              (b - (Y0 + s0 * (Y1 - Y0))) /
              (Y0 + s1 * (Y1 - Y0) - (Y0 + s0 * (Y1 - Y0))) =
            X0 + s' * (X1 - X0) := by
          rw [mul_div_assoc, ← hT, hs']; ring
        have hinv' : ∀ t : ℚ, 0 ≤ t → t ≤ 1 →
            inWin a b c d (X0 + t * (X1 - X0)) (Y0 + t * (Y1 - Y0)) →
            s' ≤ t ∧ t ≤ s1 := by
          intro t ht0 ht1 hin
          refine ⟨?_, (hinv t ht0 ht1 hin).2⟩
          by_contra hlt
          push_neg at hlt
          exact absurd hin.2.2.1 (not_le.2 (ha4 t hlt))
        obtain ⟨IH1, IH2⟩ := ih s' s1 (h0.trans (le_of_lt ha1)) ha2 h1 hinv'
        rw [← hx, ha3] at IH1 IH2
        exact ⟨IH1, IH2⟩
      · -- endpoint 0 clipped to RIGHT edge
        have hEq := hstep.symm.trans h'
        injection hEq with e0 e1 e2 e3
        rw [e0, e1, e2, e3]
        have hB : X0 + s1 * (X1 - X0) ≤ c := by
          rcases hx1 with h | h <;> linarith
        set T : ℚ := (c - (X0 + s0 * (X1 - X0))) /
            (X0 + s1 * (X1 - X0) - (X0 + s0 * (X1 - X0))) with hT
        set s' : ℚ := s0 + T * (s1 - s0) with hs'
        obtain ⟨ha1, ha2, ha3, ha4⟩ :=
          crossCase1 X0 (X1 - X0) c s0 s1 T s' h01 hdx hB hT hs'
        have hy : Y0 + s0 * (Y1 - Y0) +
            (Y0 + s1 * (Y1 - Y0) - (Y0 + s0 * (Y1 - Y0))) *
              (c - (X0 + s0 * (X1 - X0))) /
              (X0 + s1 * (X1 - X0) - (X0 + s0 * (X1 - X0))) =
            Y0 + s' * (Y1 - Y0) := by
          rw [mul_div_assoc, ← hT, hs']; ring
        have hinv' : ∀ t : ℚ, 0 ≤ t → t ≤ 1 →
            inWin a b c d (X0 + t * (X1 - X0)) (Y0 + t * (Y1 - Y0)) →
            s' ≤ t ∧ t ≤ s1 := by
          intro t ht0 ht1 hin
          refine ⟨?_, (hinv t ht0 ht1 hin).2⟩
          by_contra hlt
          push_neg at hlt
          exact absurd hin.2.1 (not_le.2 (ha4 t hlt))
        obtain ⟨IH1, IH2⟩ := ih s' s1 (h0.trans (le_of_lt ha1)) ha2 h1 hinv'
        rw [← hy, ha3] at IH1 IH2
        exact ⟨IH1, IH2⟩
      · -- endpoint 0 clipped to LEFT edge
        have hEq := hstep.symm.trans h'
        injection hEq with e0 e1 e2 e3
        rw [e0, e1, e2, e3]
        set T : ℚ := (a - (X0 + s0 * (X1 - X0))) /
            (X0 + s1 * (X1 - X0) - (X0 + s0 * (X1 - X0))) with hT
        set s' : ℚ := s0 + T * (s1 - s0) with hs'
        obtain ⟨ha1, ha2, ha3, ha4⟩ :=
          crossCase3 X0 (X1 - X0) a s0 s1 T s' h01 hxa hx1 hT hs'
        have hy : Y0 + s0 * (Y1 - Y0) +
            (Y0 + s1 * (Y1 - Y0) - (Y0 + s0 * (Y1 - Y0))) *
              (a - (X0 + s0 * (X1 - X0))) /
              (X0 + s1 * (X1 - X0) - (X0 + s0 * (X1 - X0))) =
            Y0 + s' * (Y1 - Y0) := by
          rw [mul_div_assoc, ← hT, hs']; ring
        have hinv' : ∀ t : ℚ, 0 ≤ t → t ≤ 1 →
            inWin a b c d (X0 + t * (X1 - X0)) (Y0 + t * (Y1 - Y0)) →
            s' ≤ t ∧ t ≤ s1 := by
          intro t ht0 ht1 hin
          refine ⟨?_, (hinv t ht0 ht1 hin).2⟩
          by_contra hlt
          push_neg at hlt
          exact absurd hin.1 (not_le.2 (ha4 t hlt))
        obtain ⟨IH1, IH2⟩ := ih s' s1 (h0.trans (le_of_lt ha1)) ha2 h1 hinv'
        rw [← hy, ha3] at IH1 IH2
        exact ⟨IH1, IH2⟩
      · -- endpoint 1 clipped to TOP edge
        have hEq := hstep.symm.trans h'
        injection hEq with e0 e1 e2 e3
        rw [e0, e1, e2, e3]
        set T : ℚ := (d - (Y0 + s0 * (Y1 - Y0))) /
            (Y0 + s1 * (Y1 - Y0) - (Y0 + s0 * (Y1 - Y0))) with hT
        set s' : ℚ := s0 + T * (s1 - s0) with hs'
        obtain ⟨ha1, ha2, ha3, ha4⟩ :=
          crossCase2 Y0 (Y1 - Y0) d s0 s1 T s' h01 hp0.2.2.2 hdy hT hs'
        have hx : X0 + s0 * (X1 - X0) +
            (X0 + s1 * (X1 - X0) - (X0 + s0 * (X1 - X0))) *
              (d - (Y0 + s0 * (Y1 - Y0))) /
              (Y0 + s1 * (Y1 - Y0) - (Y0 + s0 * (Y1 - Y0))) =
            X0 + s' * (X1 - X0) := by
          rw [mul_div_assoc, ← hT, hs']; ring
        have hinv' : ∀ t : ℚ, 0 ≤ t → t ≤ 1 →
            inWin a b c d (X0 + t * (X1 - X0)) (Y0 + t * (Y1 - Y0)) →
            s0 ≤ t ∧ t ≤ s' := by
          intro t ht0 ht1 hin
          refine ⟨(hinv t ht0 ht1 hin).1, ?_⟩
          by_contra hlt
          push_neg at hlt
          exact absurd hin.2.2.2 (not_le.2 (ha4 t hlt))
        obtain ⟨IH1, IH2⟩ := ih s0 s' h0 ha1 (ha2.le.trans h1) hinv'
        rw [← hx, ha3] at IH1 IH2
        exact ⟨IH1, IH2⟩
      · -- endpoint 1 clipped to BOTTOM edge
        have hEq := hstep.symm.trans h'
        injection hEq with e0 e1 e2 e3
        rw [e0, e1, e2, e3]
        set T : ℚ := (b - (Y0 + s0 * (Y1 - Y0))) /
            (Y0 + s1 * (Y1 - Y0) - (Y0 + s0 * (Y1 - Y0))) with hT
        set s' : ℚ := s0 + T * (s1 - s0) with hs'
        obtain ⟨ha1, ha2, ha3, ha4⟩ :=
          crossCase4 Y0 (Y1 - Y0) b s0 s1 T s' h01 hp0.2.2.1 hyb hT hs'
        have hx : X0 + s0 * (X1 - X0) +
            (X0 + s1 * (X1 - X0) - (X0 + s0 * (X1 - X0))) *
              (b - (Y0 + s0 * (Y1 - Y0))) /
              (Y0 + s1 * (Y1 - Y0) - (Y0 + s0 * (Y1 - Y0))) =
            X0 + s' * (X1 - X0) := by
          rw [mul_div_assoc, ← hT, hs']; ring
        have hinv' : ∀ t : ℚ, 0 ≤ t → t ≤ 1 →
            inWin a b c d (X0 + t * (X1 - X0)) (Y0 + t * (Y1 - Y0)) →
            s0 ≤ t ∧ t ≤ s' := by
          intro t ht0 ht1 hin
          refine ⟨(hinv t ht0 ht1 hin).1, ?_⟩
          by_contra hlt
          push_neg at hlt
          exact absurd hin.2.2.1 (not_le.2 (ha4 t hlt))
        obtain ⟨IH1, IH2⟩ := ih s0 s' h0 ha1 (ha2.le.trans h1) hinv'
        rw [← hx, ha3] at IH1 IH2
        exact ⟨IH1, IH2⟩
      · -- endpoint 1 clipped to RIGHT edge
        have hEq := hstep.symm.trans h'
        injection hEq with e0 e1 e2 e3
        rw [e0, e1, e2, e3]
        set T : ℚ := (c - (X0 + s0 * (X1 - X0))) /
            (X0 + s1 * (X1 - X0) - (X0 + s0 * (X1 - X0))) with hT
        set s' : ℚ := s0 + T * (s1 - s0) with hs'
        obtain ⟨ha1, ha2, ha3, ha4⟩ :=
          crossCase2 X0 (X1 - X0) c s0 s1 T s' h01 hp0.2.1 hdx hT hs'
        have hy : Y0 + s0 * (Y1 - Y0) +
            (Y0 + s1 * (Y1 - Y0) - (Y0 + s0 * (Y1 - Y0))) *
              (c - (X0 + s0 * (X1 - X0))) /
              (X0 + s1 * (X1 - X0) - (X0 + s0 * (X1 - X0))) =
            Y0 + s' * (Y1 - Y0) := by
          rw [mul_div_assoc, ← hT, hs']; ring
        have hinv' : ∀ t : ℚ, 0 ≤ t → t ≤ 1 →
            inWin a b c d (X0 + t * (X1 - X0)) (Y0 + t * (Y1 - Y0)) →
            s0 ≤ t ∧ t ≤ s' := by
          intro t ht0 ht1 hin
          refine ⟨(hinv t ht0 ht1 hin).1, ?_⟩
          by_contra hlt
          push_neg at hlt
          exact absurd hin.2.1 (not_le.2 (ha4 t hlt))
        obtain ⟨IH1, IH2⟩ := ih s0 s' h0 ha1 (ha2.le.trans h1) hinv'
        rw [← hy, ha3] at IH1 IH2
        exact ⟨IH1, IH2⟩
      · -- endpoint 1 clipped to LEFT edge
        have hEq := hstep.symm.trans h'
        injection hEq with e0 e1 e2 e3
        rw [e0, e1, e2, e3]
        set T : ℚ := (a - (X0 + s0 * (X1 - X0))) /
            (X0 + s1 * (X1 - X0) - (X0 + s0 * (X1 - X0))) with hT
        set s' : ℚ := s0 + T * (s1 - s0) with hs'
        obtain ⟨ha1, ha2, ha3, ha4⟩ :=
          crossCase4 X0 (X1 - X0) a s0 s1 T s' h01 hp0.1 hxa hT hs'
        have hy : Y0 + s0 * (Y1 - Y0) +
            (Y0 + s1 * (Y1 - Y0) - (Y0 + s0 * (Y1 - Y0))) *
              (a - (X0 + s0 * (X1 - X0))) /
              (X0 + s1 * (X1 - X0) - (X0 + s0 * (X1 - X0))) =
            Y0 + s' * (Y1 - Y0) := by
          rw [mul_div_assoc, ← hT, hs']; ring
        have hinv' : ∀ t : ℚ, 0 ≤ t → t ≤ 1 →
            inWin a b c d (X0 + t * (X1 - X0)) (Y0 + t * (Y1 - Y0)) →
            s0 ≤ t ∧ t ≤ s' := by
          intro t ht0 ht1 hin
          refine ⟨(hinv t ht0 ht1 hin).1, ?_⟩
          by_contra hlt
          push_neg at hlt
          exact absurd hin.1 (not_le.2 (ha4 t hlt))
        obtain ⟨IH1, IH2⟩ := ih s0 s' h0 ha1 (ha2.le.trans h1) hinv'
        rw [← hy, ha3] at IH1 IH2
        exact ⟨IH1, IH2⟩

/-- `csRun_param` specialised to the full parameter interval `[0, 1]`,
i.e. to the original endpoints. -/
lemma csRun_main (a b c d X0 Y0 X1 Y1 : ℚ) (hac : a ≤ c) (hbd : b ≤ d)
    (fuel : ℕ) :
    (∀ r0 r1 r2 r3 : ℚ,
      csRun a b c d fuel X0 Y0 X1 Y1 = .accept r0 r1 r2 r3 →
      ∃ u v : ℚ, 0 ≤ u ∧ u ≤ v ∧ v ≤ 1 ∧
        r0 = X0 + u * (X1 - X0) ∧ r1 = Y0 + u * (Y1 - Y0) ∧
        r2 = X0 + v * (X1 - X0) ∧ r3 = Y0 + v * (Y1 - Y0) ∧
        inWin a b c d r0 r1 ∧ inWin a b c d r2 r3 ∧
        (∀ t : ℚ, 0 ≤ t → t ≤ 1 →
          inWin a b c d (X0 + t * (X1 - X0)) (Y0 + t * (Y1 - Y0)) →
          u ≤ t ∧ t ≤ v)) ∧
    (csRun a b c d fuel X0 Y0 X1 Y1 = .reject →
      ∀ t : ℚ, 0 ≤ t → t ≤ 1 →
        ¬ inWin a b c d (X0 + t * (X1 - X0)) (Y0 + t * (Y1 - Y0))) := by
  have h := csRun_param a b c d X0 Y0 X1 Y1 hac hbd fuel 0 1 le_rfl
    zero_le_one le_rfl (fun t ht0 ht1 _ => ⟨ht0, ht1⟩)
  have e0 : X0 + 0 * (X1 - X0) = X0 := by ring
  have e1 : Y0 + 0 * (Y1 - Y0) = Y0 := by ring
  have e2 : X0 + 1 * (X1 - X0) = X1 := by ring
  have e3 : Y0 + 1 * (Y1 - Y0) = Y1 := by ring
  rw [e0, e1, e2, e3] at h
  exact h

/-- A segment with both endpoints in the window is accepted unchanged by
Cohen-Sutherland: the very first pass trivially accepts, for any fuel. -/
lemma cs_inside {a b c d x0 y0 x1 y1 : ℚ} (hw0 : inWin a b c d x0 y0)
    (hw1 : inWin a b c d x1 y1) (fuel : ℕ) :
    csRun a b c d fuel x0 y0 x1 y1 = .accept x0 y0 x1 y1 :=
  csRun_done fuel (csStep_accept
    ((code_eq_zero x0 y0 a b c d).2
      ⟨not_lt.2 hw0.1, not_lt.2 hw0.2.1, not_lt.2 hw0.2.2.1, not_lt.2 hw0.2.2.2⟩)
    ((code_eq_zero x1 y1 a b c d).2
      ⟨not_lt.2 hw1.1, not_lt.2 hw1.2.1, not_lt.2 hw1.2.2.1, not_lt.2 hw1.2.2.2⟩))

/-- A segment with both endpoints in the window is accepted unchanged by
Liang-Barsky: `u1` stays `0` and `u2` stays `1`. -/
lemma lb_inside {a b c d x0 y0 x1 y1 : ℚ} (hw0 : inWin a b c d x0 y0)
    (hw1 : inWin a b c d x1 y1) :
    liang_barsky x0 y0 x1 y1 a b c d = .accept x0 y0 x1 y1 := by
  have hP0 : inWin a b c d (x0 + 0 * (x1 - x0)) (y0 + 0 * (y1 - y0)) := by
    have e1 : x0 + 0 * (x1 - x0) = x0 := by ring
    have e2 : y0 + 0 * (y1 - y0) = y0 := by ring
    rw [e1, e2]; exact hw0
  have hP1 : inWin a b c d (x0 + 1 * (x1 - x0)) (y0 + 1 * (y1 - y0)) := by
    have e1 : x0 + 1 * (x1 - x0) = x1 := by ring
    have e2 : y0 + 1 * (y1 - y0) = y1 := by ring
    rw [e1, e2]; exact hw1
  rcases liang_barsky_cases x0 y0 x1 y1 a b c d with ⟨hLB, hno⟩ |
    ⟨u, v, hLB, hu0, huv, hv1, -, -, hmin⟩
  · exact absurd hP0 (hno 0 le_rfl zero_le_one)
  · have hu : u = 0 := le_antisymm (hmin 0 le_rfl zero_le_one hP0).1 hu0
    have hv : v = 1 := le_antisymm hv1 (hmin 1 zero_le_one le_rfl hP1).2
    rw [hu, hv] at hLB
    rw [hLB]
    congr 1 <;> ring

/-- `liang_barsky` never raises `ZeroDivisionError`. -/
lemma liang_barsky_ne_divZero (x1 y1 x2 y2 a b c d : ℚ) :
    liang_barsky x1 y1 x2 y2 a b c d ≠ .divZero := by
  rcases liang_barsky_cases x1 y1 x2 y2 a b c d with ⟨h, -⟩ |
    ⟨u, v, h, -, -, -, -, -, -⟩ <;> rw [h] <;> simp

/-! ### Concrete evaluations -/

lemma csStep_concrete_1 : csStep 5 5 150 150 10 10 100 100 = .cont 10 10 150 150 := by
  unfold csStep compute_code qdiv LEFT RIGHT BOTTOM TOP INSIDE
  norm_num [show (5:ℕ) &&& 10 = 0 from by decide,
    show (5:ℕ) &&& 8 = 0 from by decide, show (5:ℕ) &&& 4 = 4 from by decide]

lemma csStep_concrete_2 : csStep 10 10 150 150 10 10 100 100 = .cont 10 10 100 100 := by
  unfold csStep compute_code qdiv LEFT RIGHT BOTTOM TOP INSIDE
  norm_num [show (0:ℕ) &&& 10 = 0 from by decide,
    show (10:ℕ) &&& 8 = 8 from by decide]

/-- The Cohen-Sutherland run of the spec's concrete scenario: clip
(5,5)-(150,150) against window (10,10)-(100,100): one BOTTOM pass, one
TOP pass, then trivial accept. -/
lemma cs_concrete : csRun 10 10 100 100 4 5 5 150 150 = .accept 10 10 100 100 :=
  calc csRun 10 10 100 100 4 5 5 150 150
      = csRun 10 10 100 100 3 10 10 150 150 := csRun_cont 3 csStep_concrete_1
    _ = csRun 10 10 100 100 2 10 10 100 100 := csRun_cont 2 csStep_concrete_2
    _ = .accept 10 10 100 100 := cs_inside (by decide) (by decide) 2

lemma lb_concrete : liang_barsky 5 5 150 150 10 10 100 100 = .accept 10 10 100 100 := by
  unfold liang_barsky lbFold lbStep qdiv
  norm_num [List.zip, List.zipWith, List.foldl]

lemma lb_ex1_concrete :
    liang_barsky_ex1 5 5 150 150 10 10 100 100 = .accept 10 10 100 100 := by
  unfold liang_barsky_ex1 lbStepEx1 qdiv
  norm_num [List.zip, List.zipWith, List.foldl]

/-- On the degenerate window `x_min = 1 > x_max = 0`, Cohen-Sutherland
trivially rejects (5,5)-(6,6): both points get outcode RIGHT. -/
lemma cs_degen : csRun 1 0 0 10 4 5 5 6 6 = .reject :=
  csRun_done 4 (by
    unfold csStep compute_code qdiv LEFT RIGHT BOTTOM TOP INSIDE
    norm_num [show (2:ℕ) &&& 2 = 2 from by decide])

lemma lb_degen : liang_barsky 5 5 6 6 1 0 0 10 = .reject := by
  unfold liang_barsky lbFold lbStep qdiv
  norm_num [List.zip, List.zipWith, List.foldl]

/-! ### Claim theorems -/

/-- C1: for every segment and every valid clip window (`x_min ≤ x_max`,
`y_min ≤ y_max`), Cohen-Sutherland (run with its fuel bound of 4
intersection passes) and Liang-Barsky produce identical outcomes under
exact arithmetic: when both accept, the returned endpoint pairs are equal,
and one rejects exactly when the other does.  This is stated as outright
equality of the two results. -/
theorem clippers_agree (x0 y0 x1 y1 a b c d : ℚ) (hac : a ≤ c)
    (hbd : b ≤ d) :
    csRun a b c d 4 x0 y0 x1 y1 = liang_barsky x0 y0 x1 y1 a b c d := by
  obtain ⟨CSacc, CSrej⟩ := csRun_main a b c d x0 y0 x1 y1 hac hbd 4
  rcases liang_barsky_cases x0 y0 x1 y1 a b c d with ⟨hLB, hLBno⟩ |
    ⟨u, v, hLB, hu0, huv, hv1, hwu, hwv, hmin⟩
  · rw [hLB]
    cases hres : csRun a b c d 4 x0 y0 x1 y1 with
    | accept r0 r1 r2 r3 =>
      obtain ⟨u, v, hu0, huv, hv1, e0, e1, e2, e3, hw0, hw1, -⟩ :=
        CSacc r0 r1 r2 r3 hres
      rw [e0, e1] at hw0
      exact absurd hw0 (hLBno u hu0 (huv.trans hv1))
    | reject => rfl
    | divZero => exact absurd hres (csRun_ne_divZero a b c d 4 x0 y0 x1 y1)
    | fuelOut =>
      exact absurd hres (csRun_nsat_ne_fuelOut hac hbd 4 x0 y0 x1 y1
        (Nat.le_add_left 4 _))
  · rw [hLB]
    cases hres : csRun a b c d 4 x0 y0 x1 y1 with
    | accept r0 r1 r2 r3 =>
      obtain ⟨u', v', hu0', huv', hv1', e0, e1, e2, e3, hw0, hw1, hmin'⟩ :=
        CSacc r0 r1 r2 r3 hres
      have g1 := hmin u' hu0' (huv'.trans hv1') (by rw [← e0, ← e1]; exact hw0)
      have g2 := hmin v' (hu0'.trans huv') hv1' (by rw [← e2, ← e3]; exact hw1)
      have g3 := hmin' u hu0 (huv.trans hv1) hwu
      have g4 := hmin' v (hu0.trans huv) hv1 hwv
      have huu : u' = u := le_antisymm g3.1 g1.1
      have hvv : v' = v := le_antisymm g2.2 g4.2
      rw [e0, e1, e2, e3, huu, hvv]
    | reject => exact absurd hwu (CSrej hres u hu0 (huv.trans hv1))
    | divZero => exact absurd hres (csRun_ne_divZero a b c d 4 x0 y0 x1 y1)
    | fuelOut =>
      exact absurd hres (csRun_nsat_ne_fuelOut hac hbd 4 x0 y0 x1 y1
        (Nat.le_add_left 4 _))

/-- Witness for C1 at a corner-crossing segment and the window
(0,0)-(10,10). -/
theorem clippers_agree_witness :
    ((0:ℚ) ≤ 10 ∧ (0:ℚ) ≤ 10) ∧
      csRun 0 0 10 10 4 (-1) 1 1 (-1) = liang_barsky (-1) 1 1 (-1) 0 0 10 10 :=
  ⟨⟨by norm_num, by norm_num⟩,
    clippers_agree (-1) 1 1 (-1) 0 0 10 10 (by norm_num) (by norm_num)⟩

/-- C2: a segment whose two endpoints both lie inside the window is
returned unchanged by both `cohen_sutherland_clip` (any fuel, in
particular within its 4-pass bound) and `liang_barsky`: the four returned
coordinates equal the four input coordinates exactly. -/
theorem clip_inside_unchanged (a b c d x0 y0 x1 y1 : ℚ) (fuel : ℕ)
    (hw0 : inWin a b c d x0 y0) (hw1 : inWin a b c d x1 y1) :
    csRun a b c d fuel x0 y0 x1 y1 = .accept x0 y0 x1 y1 ∧
      liang_barsky x0 y0 x1 y1 a b c d = .accept x0 y0 x1 y1 :=
  ⟨cs_inside hw0 hw1 fuel, lb_inside hw0 hw1⟩

/-- Witness for C2 on the segment (2,3)-(5,7) inside window (0,0)-(10,10). -/
theorem clip_inside_unchanged_witness :
    (inWin 0 0 10 10 2 3 ∧ inWin 0 0 10 10 5 7) ∧
      csRun 0 0 10 10 4 2 3 5 7 = .accept 2 3 5 7 ∧
      liang_barsky 2 3 5 7 0 0 10 10 = .accept 2 3 5 7 :=
  ⟨⟨by decide, by decide⟩,
    clip_inside_unchanged 0 0 10 10 2 3 5 7 4 (by decide) (by decide)⟩

/-- C3: a segment whose endpoints share a nonzero outcode bit — both
strictly left of `x_min`, both strictly right of `x_max`, both strictly
below `y_min`, or both strictly above `y_max` — is reported outside
(`None`) by both algorithms, for any valid window. -/
theorem clip_shared_outcode_reject (a b c d x0 y0 x1 y1 : ℚ) (fuel : ℕ)
    (hac : a ≤ c) (hbd : b ≤ d)
    (hsh : (x0 < a ∧ x1 < a) ∨ (c < x0 ∧ c < x1) ∨ (y0 < b ∧ y1 < b) ∨
      (d < y0 ∧ d < y1)) :
    csRun a b c d fuel x0 y0 x1 y1 = .reject ∧
      liang_barsky x0 y0 x1 y1 a b c d = .reject := by
  constructor
  · have hm0 := compute_code_mem x0 y0 a b c d
    have hm1 := compute_code_mem x1 y1 a b c d
    refine csRun_done fuel (csStep_reject ?_ ?_)
    · rintro ⟨h0, -⟩
      have h := (code_eq_zero x0 y0 a b c d).1 h0
      rcases hsh with ⟨hx, -⟩ | ⟨hx, -⟩ | ⟨hx, -⟩ | ⟨hx, -⟩
      · exact h.1 hx
      · exact h.2.1 hx
      · exact h.2.2.1 hx
      · exact h.2.2.2 hx
    · rcases hsh with ⟨h0, h1⟩ | ⟨h0, h1⟩ | ⟨h0, h1⟩ | ⟨h0, h1⟩
      · exact code_pair_share LEFT _ _ (by decide) hm0 hm1
          ((code_left x0 y0 a b c d).2 h0) ((code_left x1 y1 a b c d).2 h1)
      · exact code_pair_share RIGHT _ _ (by decide) hm0 hm1
          ((code_right x0 y0 a b c d).2 ⟨not_lt.2 (hac.trans h0.le), h0⟩)
          ((code_right x1 y1 a b c d).2 ⟨not_lt.2 (hac.trans h1.le), h1⟩)
      · exact code_pair_share BOTTOM _ _ (by decide) hm0 hm1
          ((code_bottom x0 y0 a b c d).2 h0) ((code_bottom x1 y1 a b c d).2 h1)
      · exact code_pair_share TOP _ _ (by decide) hm0 hm1
          ((code_top x0 y0 a b c d).2 ⟨not_lt.2 (hbd.trans h0.le), h0⟩)
          ((code_top x1 y1 a b c d).2 ⟨not_lt.2 (hbd.trans h1.le), h1⟩)
  · rcases liang_barsky_cases x0 y0 x1 y1 a b c d with ⟨hLB, -⟩ |
      ⟨u, v, hLB, hu0, huv, hv1, hwu, -, -⟩
    · exact hLB
    · exfalso
      have hu1 : u ≤ 1 := huv.trans hv1
      rcases hsh with ⟨h0, h1⟩ | ⟨h0, h1⟩ | ⟨h0, h1⟩ | ⟨h0, h1⟩
      · exact absurd hwu.1 (not_le.2 (affine_small x0 (x1 - x0) a 0 1 u
          (by linarith) (by linarith) hu0 hu1))
      · exact absurd hwu.2.1 (not_le.2 (affine_big x0 (x1 - x0) c 0 1 u
          (by linarith) (by linarith) hu0 hu1))
      · exact absurd hwu.2.2.1 (not_le.2 (affine_small y0 (y1 - y0) b 0 1 u
          (by linarith) (by linarith) hu0 hu1))
      · exact absurd hwu.2.2.2 (not_le.2 (affine_big y0 (y1 - y0) d 0 1 u
          (by linarith) (by linarith) hu0 hu1))

/-- Witness for C3 on the spec's example: segment (-10,50)-(-5,60) is
fully left of window (0,0)-(100,100). -/
theorem clip_shared_outcode_reject_witness :
    ((0:ℚ) ≤ 100 ∧ (0:ℚ) ≤ 100 ∧ ((-10:ℚ) < 0 ∧ (-5:ℚ) < 0)) ∧
      csRun 0 0 100 100 4 (-10) 50 (-5) 60 = .reject ∧
      liang_barsky (-10) 50 (-5) 60 0 0 100 100 = .reject :=
  ⟨⟨by norm_num, by norm_num, by norm_num, by norm_num⟩,
    clip_shared_outcode_reject 0 0 100 100 (-10) 50 (-5) 60 4
      (by norm_num) (by norm_num) (Or.inl ⟨by norm_num, by norm_num⟩)⟩

/-- C4: over a valid window, whenever either algorithm returns a segment,
both returned endpoints lie inside the window and on the input segment
(each is `p0 + t (p1 - p0)` for some `t ∈ [0, 1]`), under exact
arithmetic. -/
theorem clip_accept_sound (a b c d x0 y0 x1 y1 r0 r1 r2 r3 : ℚ)
    (fuel : ℕ) (hac : a ≤ c) (hbd : b ≤ d) :
    (csRun a b c d fuel x0 y0 x1 y1 = .accept r0 r1 r2 r3 →
      inWin a b c d r0 r1 ∧ inWin a b c d r2 r3 ∧
        onSeg x0 y0 x1 y1 r0 r1 ∧ onSeg x0 y0 x1 y1 r2 r3) ∧
    (liang_barsky x0 y0 x1 y1 a b c d = .accept r0 r1 r2 r3 →
      inWin a b c d r0 r1 ∧ inWin a b c d r2 r3 ∧
        onSeg x0 y0 x1 y1 r0 r1 ∧ onSeg x0 y0 x1 y1 r2 r3) := by
  constructor
  · intro h
    obtain ⟨u, v, hu0, huv, hv1, e0, e1, e2, e3, hw0, hw1, -⟩ :=
      (csRun_main a b c d x0 y0 x1 y1 hac hbd fuel).1 r0 r1 r2 r3 h
    exact ⟨hw0, hw1, ⟨u, hu0, huv.trans hv1, e0, e1⟩,
      ⟨v, hu0.trans huv, hv1, e2, e3⟩⟩
  · intro h
    rcases liang_barsky_cases x0 y0 x1 y1 a b c d with ⟨hLB, -⟩ |
      ⟨u, v, hLB, hu0, huv, hv1, hwu, hwv, -⟩
    · rw [hLB] at h; exact absurd h (by simp)
    · rw [hLB] at h
      injection h with e0 e1 e2 e3
      refine ⟨?_, ?_, ⟨u, hu0, huv.trans hv1, e0.symm, e1.symm⟩,
        ⟨v, hu0.trans huv, hv1, e2.symm, e3.symm⟩⟩
      · rw [← e0, ← e1]; exact hwu
      · rw [← e2, ← e3]; exact hwv

/-- Witness for C4 on a fully inside segment. -/
theorem clip_accept_sound_witness :
    ((0:ℚ) ≤ 10 ∧ (0:ℚ) ≤ 10) ∧
      (inWin 0 0 10 10 2 3 ∧ inWin 0 0 10 10 5 7 ∧
        onSeg 2 3 5 7 2 3 ∧ onSeg 2 3 5 7 5 7) :=
  ⟨⟨by norm_num, by norm_num⟩,
    (clip_accept_sound 0 0 10 10 2 3 5 7 2 3 5 7 4
      (by norm_num) (by norm_num)).1 (cs_inside (by decide) (by decide) 4)⟩

/-- C5 (counterexample to the claim): the claim asserts that for some
input the Cohen-Sutherland intersection division is reached with a zero
denominator.  In fact no input whatsoever — axis-parallel segments
included — ever produces a `ZeroDivisionError`: the trivial-reject test
runs first in the same iteration, so whenever a TOP/BOTTOM (resp.
RIGHT/LEFT) branch is reached, the other endpoint is at or beyond the
other side of the edge and the denominator `y1 - y0` (resp. `x1 - x0`)
is nonzero. -/
theorem cs_divZero_unreachable :
    ¬ ∃ (fuel : ℕ) (x0 y0 x1 y1 a b c d : ℚ),
      csRun a b c d fuel x0 y0 x1 y1 = .divZero := by
  rintro ⟨fuel, x0, y0, x1, y1, a, b, c, d, h⟩
  exact csRun_ne_divZero a b c d fuel x0 y0 x1 y1 h

/-- C5 (amended): neither algorithm can divide by zero: Cohen-Sutherland
because the shared-outcode reject precedes every intersection division,
and Liang-Barsky because the `p_i == 0` case is checked before dividing. -/
theorem no_division_by_zero :
    (∀ (fuel : ℕ) (x0 y0 x1 y1 a b c d : ℚ),
      csRun a b c d fuel x0 y0 x1 y1 ≠ .divZero) ∧
    (∀ x1 y1 x2 y2 a b c d : ℚ,
      liang_barsky x1 y1 x2 y2 a b c d ≠ .divZero) :=
  ⟨fun fuel x0 y0 x1 y1 a b c d => csRun_ne_divZero a b c d fuel x0 y0 x1 y1,
    liang_barsky_ne_divZero⟩

/-- C6: over a valid window, the `while True` loop of
`cohen_sutherland_clip` terminates within 4 intersection-computing
(third-case) iterations: running the loop with fuel 4 — fuel is consumed
only by the third case — never exhausts the fuel, because each such
iteration strictly increases the number of window edges satisfied by both
endpoints, and all four edges satisfied forces the trivial-accept exit. -/
theorem cs_loop_terminates (x0 y0 x1 y1 a b c d : ℚ) (hac : a ≤ c)
    (hbd : b ≤ d) :
    csRun a b c d 4 x0 y0 x1 y1 ≠ .fuelOut :=
  csRun_nsat_ne_fuelOut hac hbd 4 x0 y0 x1 y1 (Nat.le_add_left 4 _)

/-- Witness for C6. -/
theorem cs_loop_terminates_witness :
    ((0:ℚ) ≤ 10 ∧ (0:ℚ) ≤ 10) ∧
      csRun 0 0 10 10 4 (-1) 1 1 (-1) ≠ .fuelOut :=
  ⟨⟨by norm_num, by norm_num⟩,
    cs_loop_terminates (-1) 1 1 (-1) 0 0 10 10 (by norm_num) (by norm_num)⟩

/-- C7: clipping is idempotent.  If either algorithm returns a segment,
re-clipping that segment against the same window returns it again exactly
(Cohen-Sutherland then accepts on the first pass, with any fuel). -/
theorem clip_idempotent (a b c d x0 y0 x1 y1 r0 r1 r2 r3 : ℚ) (fuel : ℕ) :
    (csRun a b c d fuel x0 y0 x1 y1 = .accept r0 r1 r2 r3 →
      ∀ fuel2 : ℕ, csRun a b c d fuel2 r0 r1 r2 r3 = .accept r0 r1 r2 r3) ∧
    (liang_barsky x0 y0 x1 y1 a b c d = .accept r0 r1 r2 r3 →
      liang_barsky r0 r1 r2 r3 a b c d = .accept r0 r1 r2 r3) := by
  constructor
  · intro h fuel2
    obtain ⟨hc0, hc1⟩ := csRun_accept_codes a b c d fuel x0 y0 x1 y1
      r0 r1 r2 r3 h
    exact csRun_done fuel2 (csStep_accept hc0 hc1)
  · intro h
    rcases liang_barsky_cases x0 y0 x1 y1 a b c d with ⟨hLB, -⟩ |
      ⟨u, v, hLB, -, -, -, hwu, hwv, -⟩
    · rw [hLB] at h; exact absurd h (by simp)
    · rw [hLB] at h
      injection h with e0 e1 e2 e3
      exact lb_inside (by rw [← e0, ← e1]; exact hwu)
        (by rw [← e2, ← e3]; exact hwv)

/-- Witness for C7. -/
theorem clip_idempotent_witness :
    csRun 0 0 10 10 4 2 3 5 7 = .accept 2 3 5 7 ∧
      csRun 0 0 10 10 0 2 3 5 7 = .accept 2 3 5 7 ∧
      liang_barsky 2 3 5 7 0 0 10 10 = .accept 2 3 5 7 := by
  have hcs : csRun 0 0 10 10 4 2 3 5 7 = .accept 2 3 5 7 :=
    cs_inside (by decide) (by decide) 4
  have hlb : liang_barsky 2 3 5 7 0 0 10 10 = .accept 2 3 5 7 :=
    lb_inside (by decide) (by decide)
  have h := clip_idempotent 0 0 10 10 2 3 5 7 2 3 5 7 4
  exact ⟨hcs, h.1 hcs 0, h.2 hlb⟩

/-- C8: on the concrete segment (5,5)-(150,150) and window
(10,10)-(100,100), `cohen_sutherland_clip` and both `liang_barsky`
versions return the clipped segment (10,10)-(100,100). -/
theorem clip_concrete_example :
    csRun 10 10 100 100 4 5 5 150 150 = .accept 10 10 100 100 ∧
      liang_barsky_ex1 5 5 150 150 10 10 100 100 = .accept 10 10 100 100 ∧
      liang_barsky 5 5 150 150 10 10 100 100 = .accept 10 10 100 100 :=
  ⟨cs_concrete, lb_ex1_concrete, lb_concrete⟩

/-- C9: a zero-length segment (`p0 = p1`) is classified purely by point
containment: both algorithms return the point unchanged when it lies in
the window and report outside otherwise.  No intersection mathematics is
involved: the Cohen-Sutherland conclusion holds for every fuel, in
particular fuel 0, i.e. before any intersection-computing iteration could
run, and Liang-Barsky takes the division-free `p_i = 0` branch four
times. -/
theorem clip_point_segment (a b c d x y : ℚ) (fuel : ℕ) :
    (inWin a b c d x y →
      csRun a b c d fuel x y x y = .accept x y x y ∧
        liang_barsky x y x y a b c d = .accept x y x y) ∧
    (¬ inWin a b c d x y →
      csRun a b c d fuel x y x y = .reject ∧
        liang_barsky x y x y a b c d = .reject) := by
  constructor
  · intro hw
    exact ⟨cs_inside hw hw fuel, lb_inside hw hw⟩
  · intro hw
    constructor
    · refine csRun_done fuel (csStep_reject ?_ ?_)
      · rintro ⟨h0, -⟩
        have h := (code_eq_zero x y a b c d).1 h0
        exact hw ⟨not_lt.1 h.1, not_lt.1 h.2.1, not_lt.1 h.2.2.1,
          not_lt.1 h.2.2.2⟩
      · rw [Nat.and_self]
        intro h0
        have h := (code_eq_zero x y a b c d).1 h0
        exact hw ⟨not_lt.1 h.1, not_lt.1 h.2.1, not_lt.1 h.2.2.1,
          not_lt.1 h.2.2.2⟩
    · rcases liang_barsky_cases x y x y a b c d with ⟨hLB, -⟩ |
        ⟨u, v, hLB, -, -, -, hwu, -, -⟩
      · exact hLB
      · exfalso
        apply hw
        have e1 : x + u * (x - x) = x := by ring
        have e2 : y + u * (y - y) = y := by ring
        rw [e1, e2] at hwu
        exact hwu

/-- Witness for C9 on the spec's example: point (0,0) inside window
(0,0)-(10,10). -/
theorem clip_point_segment_witness :
    inWin 0 0 10 10 0 0 ∧
      csRun 0 0 10 10 4 0 0 0 0 = .accept 0 0 0 0 ∧
      liang_barsky 0 0 0 0 0 0 10 10 = .accept 0 0 0 0 :=
  ⟨by decide, (clip_point_segment 0 0 10 10 0 0 4).1 (by decide)⟩

/-- C10 (counterexample to the claim): neither function validates the
window.  On the degenerate window `x_min = 1 > x_max = 0` both run
silently and return the ordinary outside result `None`; no
"InvalidWindow" condition exists anywhere in the code. -/
theorem degenerate_window_silent :
    ¬ ((1:ℚ) ≤ 0) ∧
      csRun 1 0 0 10 4 5 5 6 6 = .reject ∧
      liang_barsky 5 5 6 6 1 0 0 10 = .reject :=
  ⟨by norm_num, cs_degen, lb_degen⟩

/-- C10 (amended): the code performs no window validation and raises no
error on a degenerate window; it silently computes an ordinary result.
What does hold is that a degenerate window can never yield a clipped
segment: both functions never return `accept` when `x_min > x_max` or
`y_min > y_max`. -/
theorem degenerate_window_no_accept (a b c d x0 y0 x1 y1 r0 r1 r2 r3 : ℚ)
    (fuel : ℕ) (hdeg : ¬ (a ≤ c ∧ b ≤ d)) :
    csRun a b c d fuel x0 y0 x1 y1 ≠ .accept r0 r1 r2 r3 ∧
      liang_barsky x0 y0 x1 y1 a b c d ≠ .accept r0 r1 r2 r3 := by
  constructor
  · intro h
    obtain ⟨hc0, hc1⟩ := csRun_accept_codes a b c d fuel x0 y0 x1 y1
      r0 r1 r2 r3 h
    have h0 := (code_eq_zero r0 r1 a b c d).1 hc0
    exact hdeg ⟨le_trans (not_lt.1 h0.1) (not_lt.1 h0.2.1),
      le_trans (not_lt.1 h0.2.2.1) (not_lt.1 h0.2.2.2)⟩
  · intro h
    rcases liang_barsky_cases x0 y0 x1 y1 a b c d with ⟨hLB, -⟩ |
      ⟨u, v, hLB, -, -, -, hwu, -, -⟩
    · rw [hLB] at h; exact absurd h (by simp)
    · exact hdeg ⟨hwu.1.trans hwu.2.1, hwu.2.2.1.trans hwu.2.2.2⟩

/-- Witness for the amended C10. -/
theorem degenerate_window_no_accept_witness :
    ¬ ((1:ℚ) ≤ 0 ∧ (0:ℚ) ≤ 10) ∧
      csRun 1 0 0 10 4 5 5 6 6 ≠ .accept 5 5 6 6 ∧
      liang_barsky 5 5 6 6 1 0 0 10 ≠ .accept 5 5 6 6 := by
  have h := degenerate_window_no_accept 1 0 0 10 5 5 6 6 5 5 6 6 4
    (by norm_num)
  exact ⟨by norm_num, h.1, h.2⟩
